import Mathlib

/-!
# igrow: the generational loop of `src/main.cpp`

A shallow embedding of `main` (src/main.cpp) and of `operator<` on ligands
(src/ligand.hpp), followed by theorems about the seed parser, the task
spawning and the seeds of the tasks, the failure budget, the scorer call,
the re-read, the ranking, the csv report and the elitists across generations.

Conventions of the embedding.

* `size_t` values are natural numbers reduced modulo `2^64` wherever the
  source adds them.
* `fl` (the floating-point type of the source) is embedded as `ℚ`: every
  finite floating-point value is a rational and `<` on finite values is the
  order of the rationals. Not-a-number and infinities are outside the model.
* `std::string` is a list of characters where the source indexes into it
  (the seed rows) and a `String` where it is only concatenated (paths).
* Everything `main` calls but does not define (the file system, the ligand
  file reader, the worker tasks, the random engine, the scorer process, the
  library sort, stream formatting) is a field of `World`.
* The library sort behind `ligands.sort()` is, besides, embedded function by
  function from the `std::sort` of libstdc++ as `ptr_vector_sort`. The
  theorems on the Rank step are about `ptr_vector_sort`; the theorems on
  whole runs hold of every sort that keeps the guarantee `std_sort`, which
  `ptr_vector_sort` does.
* The loop `for (generation = 1; true; ++generation)` never leaves by
  itself, so `loop` and `main` take a number of generations to run (`fuel`)
  and answer `none` for the exit code while the program is still running.
-/

namespace igrow

/-! ## Basic types -/

/-- The floating-point type `fl` of the source, restricted to finite values. -/
abbrev fl := ℚ

/-- The width of `size_t`: sums of `size_t` values wrap at `2^64`. -/
def SIZE : Nat := 2 ^ 64

/-- The value of `std::string::npos`, the largest `size_t`. -/
def npos : Nat := 2 ^ 64 - 1

/-- The data members of `ligand` that `main` reads or writes
(src/main.cpp:277, 411-423). `p`, the descriptors and `free_energy` are
declared in src/ligand.hpp:43-52; the lineage members and the three counts
are used by `main` at lines 412-419. -/
structure ligand where
  p : String
  parent1 : String
  c1srn : Nat
  parent2 : String
  c2srn : Nat
  free_energy : fl
  num_rotatable_bonds : Nat
  num_atoms : Nat
  num_heavy_atoms : Nat
  num_hb_donors : Nat
  num_hb_acceptors : Nat
  mw : fl
  logp : fl
deriving DecidableEq

/-- The value of a read outside a range (`getD`), where the source has no
defined value, and the base of the ligands of the examples. It is not the
ligand made by `ligand() {}` (src/ligand.hpp:54), which leaves the numeric
members without a value: that ligand is `World.default_constructed`. -/
instance : Inhabited ligand :=
  ⟨⟨"", "", 0, "", 0, 0, 0, 0, 0, 0, 0, 0, 0⟩⟩

/-- The comparison of src/ligand.hpp:143-146:
`return a.free_energy < b.free_energy;`. -/
def operator_lt (a b : ligand) : Bool :=
  decide (a.free_energy < b.free_energy)

/-- The guarantee of `std::sort`, which `ptr_vector::sort()` runs with
`operator<` (src/main.cpp:404): the range is rearranged, and afterwards no
element compares less than an element in front of it. The guarantee says
nothing about the relative order of elements that compare equivalent. -/
def std_sort (sort : List ligand → List ligand) : Prop :=
  ∀ l, (sort l).Perm l ∧ (sort l).Pairwise (fun a b => operator_lt b a = false)

/-- The path concatenation `a / b` of boost::filesystem. -/
def path_div (a b : String) : String :=
  a ++ "/" ++ b

/-- The decimal text of a `size_t`, `lexical_cast<string>(i)`. -/
def lexical_cast_string (i : Nat) : String :=
  toString i

/-! ## Strings with positions -/

/-- The call `s.find_first_of(c, pos)` of `std::string`: the position of the
first `c` at or after `pos`, or `npos`. -/
def find_first_of (s : List Char) (c : Char) (pos : Nat) : Nat :=
  if c ∈ s.drop pos then pos + (s.drop pos).indexOf c else npos

/-- The call `s.substr(pos, n)` of `std::string`: at most `n` characters from
`pos`; `none` stands for the `out_of_range` it throws when `pos > s.size()`. -/
def substr (s : List Char) (pos n : Nat) : Option (List Char) :=
  if pos > s.length then none else some ((s.drop pos).take n)

/-- Modelled from the spec: `right_cast<fl>(str, i, j)`, whose header is not
among the source files. It consumes the text of the columns `i .. j` of
`str`, counted from 1 and both included (src/main.cpp:277, "right_cast is
1-based"), and hands it to the text-to-number conversion, here the argument
`cast`; `none` stands for an exception. `right_cast_text` is the text
consumed. -/
def right_cast_text (str : List Char) (i j : Nat) : Option (List Char) :=
  substr str (i - 1) (j - (i - 1))

/-- Modelled from the spec: `right_cast<fl>(str, i, j)` as the conversion of
`right_cast_text str i j`; the helper is missing from the source files. -/
def right_cast (cast : List Char → Option fl) (str : List Char) (i j : Nat) : Option fl :=
  (right_cast_text str i j).bind cast

/-! ## The seed rows (src/main.cpp:270-277) -/

/-- Line 271: `comma1 = line.find_first_of(',', 1)`. -/
def comma1 (line : List Char) : Nat :=
  find_first_of line ',' 1

/-- Line 275: `comma2 = line.find_first_of(',', comma1 + 2)`. -/
def comma2 (line : List Char) : Nat :=
  find_first_of line ',' ((comma1 line + 2) % SIZE)

/-- Line 276: `comma3 = line.find_first_of(',', comma2 + 6)`. -/
def comma3 (line : List Char) : Nat :=
  find_first_of line ',' ((comma2 line + 6) % SIZE)

/-- Line 272: the text `line.substr(0, comma1)` taken as ligand id. -/
def seed_id (line : List Char) : Option (List Char) :=
  substr line 0 (comma1 line)

/-- Line 272: the file `initial_generation_folder_path / (id + ".pdbqt")`. -/
def seed_path (initial_generation_folder_path : String) (line : List Char) : Option String :=
  (seed_id line).map
    (fun id => path_div initial_generation_folder_path (String.mk id ++ ".pdbqt"))

/-- Line 277: the text handed to the conversion by
`right_cast<fl>(line, comma2 + 2, comma3)`. -/
def seed_free_energy_text (line : List Char) : Option (List Char) :=
  right_cast_text line ((comma2 line + 2) % SIZE) (comma3 line)

/-- Line 277: the free energy `right_cast<fl>(line, comma2 + 2, comma3)`. -/
def seed_free_energy (cast : List Char → Option fl) (line : List Char) : Option fl :=
  right_cast cast line ((comma2 line + 2) % SIZE) (comma3 line)

/-! ## Program options (src/main.cpp:60-238) -/

/-- The values `main` holds after option parsing, with the answers of the
file-system probes of lines 148-215. `parse_throws` says that parsing the
command line or the configuration file (lines 135-143) threw. -/
structure Options where
  argc : Nat
  parse_throws : Bool
  initial_generation_csv_exists : Bool
  initial_generation_csv_is_regular_file : Bool
  initial_generation_folder_exists : Bool
  initial_generation_folder_is_directory : Bool
  fragment_folder_exists : Bool
  fragment_folder_is_directory : Bool
  idock_config_exists : Bool
  idock_config_is_regular_file : Bool
  create_directories_output_folder : Bool
  log_path_is_directory : Bool
  csv_path_is_directory : Bool
  initial_generation_folder_path : String
  idock_config_path : String
  output_folder_path : String
  num_threads : Nat
  seed : Nat
  num_elitists : Nat
  num_mutants : Nat
  num_crossovers : Nat
  max_failures : Nat
  max_mw : fl
  max_logp : fl
  min_logp : fl

/-- The first `try` block of `main` (lines 69-238): `some c` when `main`
returns `c` from it, `none` when control reaches line 240. -/
def process_options (o : Options) : Option Nat :=
  if o.argc = 1 then some 0
  else if o.parse_throws then some 1
  else if !o.initial_generation_csv_exists then some 1
  else if !o.initial_generation_csv_is_regular_file then some 1
  else if !o.initial_generation_folder_exists then some 1
  else if !o.initial_generation_folder_is_directory then some 1
  else if !o.fragment_folder_exists then some 1
  else if !o.fragment_folder_is_directory then some 1
  else if !o.idock_config_exists then some 1
  else if !o.idock_config_is_regular_file then some 1
  else if !o.create_directories_output_folder then some 1
  else if o.log_path_is_directory then some 1
  else if o.csv_path_is_directory then some 1
  else if o.num_threads = 0 then some 1
  else if o.max_mw ≤ 0 then some 1
  else if o.min_logp > o.max_logp then some 1
  else none

/-- Line 247: `num_children = num_mutants + num_crossovers`. -/
def num_children (o : Options) : Nat :=
  (o.num_mutants + o.num_crossovers) % SIZE

/-- Line 248: `num_ligands = num_elitists + num_children`. -/
def num_ligands (o : Options) : Nat :=
  (o.num_elitists + num_children o) % SIZE

/-- Lines 314-319: the vector `ligand_filenames`, "1.pdbqt", "2.pdbqt", ...,
one name for each `i` with `1 <= i <= num_ligands`. -/
def ligand_filenames (o : Options) : List String :=
  (List.range' 1 (num_ligands o)).map (fun i => lexical_cast_string i ++ ".pdbqt")

/-! ## Tasks, events and the world around `main` -/

/-- The two member functions of `operation` that a task is bound to. -/
inductive task_kind where
  | mutation_task
  | crossover_task
deriving DecidableEq

/-- What lines 365 and 369 bind into a `packaged_task`: the member function,
the slot `num_elitists + i`, the file `ligand_folder / ligand_filenames[i]`
and the seed `eng()`. -/
structure operation_task where
  kind : task_kind
  index : Nat
  p : String
  seed : Nat
deriving DecidableEq

/-- The outward actions of one generation, in the order `main` performs them. -/
inductive Event where
  | push_back (t : operation_task)
  | run
  | idock (args : List String)
  | update (index : Nat) (p : String)
  | sort
deriving DecidableEq

/-- Everything `main` calls and does not define. `none` as a result stands for
a thrown `std::exception`.

* `initial_generation_csv`: the lines `getline` reads, the header first.
* `default_constructed i`: the ligand that `ligands.resize(num_ligands)` of
  line 253 makes in slot `i` with `ligand() {}` (src/ligand.hpp:54). The
  constructor initialises no numeric member, so the free energy and the
  descriptors of this ligand are whatever the memory held.
* `new_ligand`: the constructor `ligand(const path&)` of line 272.
* `lexical_cast_fl`: the text-to-`fl` conversion inside `right_cast`.
* `find_idock`: `find_executable_in_path("idock")` of line 322.
* `mt19937 seed k`: output number `k` (from 0) of `mt19937eng eng(seed)`.
* `create_directory`: `false` when the call of lines 357-359 throws.
* `run_task t ligands n`: what the task `t` does when the pool runs it on the
  population `ligands` with the failure counter at `n`: the ligand it stores
  in its slot (`none` when its future holds an exception) and the counter
  afterwards.
* `idock exe args`: the exit status of the scorer process of line 390.
* `update file l`: `l.update(file)` of line 400.
* `sort`: `ptr_vector::sort()` of line 404, the sort of the library the
  program is linked with; with libstdc++ it is `ptr_vector_sort`.
* `show_fl`, `show_path`: how `operator<<` prints an `fl` and a path. -/
structure World where
  initial_generation_csv : List (List Char)
  default_constructed : Nat → ligand
  new_ligand : String → Option ligand
  lexical_cast_fl : List Char → Option fl
  find_idock : Option String
  mt19937 : Nat → Nat → Nat
  create_directory : String → Bool
  run_task : operation_task → List ligand → Nat → Option ligand × Nat
  idock : String → List String → Int
  update : String → ligand → Option ligand
  sort : List ligand → List ligand
  show_fl : fl → String
  show_path : String → String

/-- The variables of `main` that change while it runs, the lines written to
the csv file so far, and the events so far. `eng_calls` counts the calls of
`eng()`. -/
structure State where
  ligands : List ligand
  num_failures : Nat
  eng_calls : Nat
  csv : List String
  trace : List Event

/-! ## Start-up (src/main.cpp:252-279, 345) -/

/-- Line 253, `ligands.resize(num_ligands)` on the empty vector: one ligand
made by `ligand() {}` in each of the `num_ligands` slots. -/
def resize (w : World) (num_ligands : Nat) : List ligand :=
  (List.range num_ligands).map w.default_constructed

/-- Lines 261-278, from iteration `i` on with `n` iterations to go, `lines`
being what `getline` has not read yet. `none` stands for `return 1`, reached
by line 267 or, through the handler of line 461, by an exception of
`substr`, of the ligand constructor, of `replace` (index past the end) or of
`right_cast`. -/
def load_elitists (w : World) (o : Options) :
    Nat → Nat → List (List Char) → List ligand → Option (List ligand)
  | 0, _, _, ligands => some ligands
  | _ + 1, _, [], _ => none
  | n + 1, i, line :: rest, ligands =>
    match seed_path o.initial_generation_folder_path line with
    | none => none
    | some file =>
      match w.new_ligand file with
      | none => none
      | some l =>
        if i < ligands.length then
          match seed_free_energy w.lexical_cast_fl line with
          | none => none
          | some fe =>
            load_elitists w o n (i + 1) rest (ligands.set i { l with free_energy := fe })
        else none

/-- Line 345: the header line of the csv file. -/
def csv_header : String :=
  "generation,ligand,parent 1,connector 1,parent 2,connector 2,free energy in kcal/mol,no. of rotatable bonds,no. of atoms,no. of heavy atoms,no. of hydrogen bond donors,no. of hydrogen bond acceptors,molecular weight,logP\n"

/-! ## One generation (src/main.cpp:349-425) -/

/-- Line 352: `output_folder_path / lexical_cast<string>(generation)`. -/
def generation_folder (o : Options) (generation : Nat) : String :=
  path_div o.output_folder_path (lexical_cast_string generation)

/-- Line 353: `generation_folder / "ligand"`. -/
def ligand_folder (o : Options) (generation : Nat) : String :=
  path_div (generation_folder o generation) "ligand"

/-- Line 354: `generation_folder / "output"`. -/
def output_folder (o : Options) (generation : Nat) : String :=
  path_div (generation_folder o generation) "output"

/-- Whether the three `create_directory` calls of lines 357-359 return. -/
def directories_created (w : World) (o : Options) (g : Nat) : Bool :=
  w.create_directory (generation_folder o g)
    && w.create_directory (ligand_folder o g)
    && w.create_directory (output_folder o g)

/-- Lines 363-370: the tasks pushed to `operation_tasks`, in order. The first
loop runs over `0 <= i < num_mutants`, the second over
`num_mutants <= i < num_children`; the task of index `i` is the one that
takes call number `eng_calls + i` of `eng()`. -/
def create_tasks (w : World) (o : Options) (folder : String) (eng_calls : Nat) :
    List operation_task :=
  (List.range o.num_mutants).map (fun i =>
      { kind := task_kind.mutation_task,
        index := (o.num_elitists + i) % SIZE,
        p := path_div folder ((ligand_filenames o).getD i ""),
        seed := w.mt19937 o.seed (eng_calls + i) })
  ++ (List.range' o.num_mutants (num_children o - o.num_mutants)).map (fun i =>
      { kind := task_kind.crossover_task,
        index := (o.num_elitists + i) % SIZE,
        p := path_div folder ((ligand_filenames o).getD i ""),
        seed := w.mt19937 o.seed (eng_calls + i) })

/-- The population, the failure counter and whether some future holds an
exception, while the pool works through the tasks. -/
structure pool_state where
  ligands : List ligand
  num_failures : Nat
  thrown : Bool

/-- Modelled from the spec: the effect on the population of one task run by
the pool (lines 373-379). The bodies of the tasks (operation.hpp) are missing
from the source files; by the spec a task writes exclusively into the one
slot it is bound to, which is the `index` of lines 365 and 369, and reads
the population as it was when the tasks were created. What the task
computes is `World.run_task`; an exception stays in its future. -/
def run_one (w : World) (parents : List ligand) (ps : pool_state) (t : operation_task) :
    pool_state :=
  match w.run_task t parents ps.num_failures with
  | (some l, n) => { ligands := ps.ligands.set t.index l, num_failures := n, thrown := ps.thrown }
  | (none, n) => { ligands := ps.ligands, num_failures := n, thrown := true }

/-- Lines 373-382: `tp.run(operation_tasks)` up to `tp.sync()`. -/
def tp_run (w : World) (ligands : List ligand) (num_failures : Nat)
    (tasks : List operation_task) : pool_state :=
  tasks.foldl (run_one w ligands) { ligands := ligands, num_failures := num_failures, thrown := false }

/-- Lines 326-334 and 386-389: the argument vector of the scorer. -/
def idock_args (o : Options) (generation : Nat) : List String :=
  ["--ligand_folder", ligand_folder o generation,
   "--output_folder", output_folder o generation,
   "--log", path_div (generation_folder o generation) "log.txt",
   "--csv", path_div (generation_folder o generation) "log.csv",
   "--seed", lexical_cast_string o.seed,
   "--config", o.idock_config_path]

/-- Lines 398-401 over the indices `is`: the `update` calls made, the
population afterwards, and `false` when an `update` threw. -/
def reread (w : World) (o : Options) (folder : String) :
    List Nat → List ligand → List Event × List ligand × Bool
  | [], ligands => ([], ligands, true)
  | i :: rest, ligands =>
    match w.update (path_div folder ((ligand_filenames o).getD i ""))
        (ligands.getD ((o.num_elitists + i) % SIZE) default) with
    | none =>
      ([Event.update ((o.num_elitists + i) % SIZE)
          (path_div folder ((ligand_filenames o).getD i ""))], ligands, false)
    | some l =>
      (Event.update ((o.num_elitists + i) % SIZE)
          (path_div folder ((ligand_filenames o).getD i ""))
        :: (reread w o folder rest (ligands.set ((o.num_elitists + i) % SIZE) l)).1,
       (reread w o folder rest (ligands.set ((o.num_elitists + i) % SIZE) l)).2)

/-- Line 404: `ligands.sort()`, with the library sort as argument
(`ptr_vector_sort` with libstdc++). -/
def rank (sort : List ligand → List ligand) (ligands : List ligand) : List ligand :=
  sort ligands

/-- Lines 410-424: the line written for the ligand `l`. -/
def csv_row (w : World) (generation : Nat) (l : ligand) : String :=
  lexical_cast_string generation
    ++ "," ++ w.show_path l.p
    ++ "," ++ l.parent1
    ++ "," ++ lexical_cast_string l.c1srn
    ++ "," ++ l.parent2
    ++ "," ++ lexical_cast_string l.c2srn
    ++ "," ++ w.show_fl l.free_energy
    ++ "," ++ lexical_cast_string l.num_rotatable_bonds
    ++ "," ++ lexical_cast_string l.num_atoms
    ++ "," ++ lexical_cast_string l.num_heavy_atoms
    ++ "," ++ lexical_cast_string l.num_hb_donors
    ++ "," ++ lexical_cast_string l.num_hb_acceptors
    ++ "," ++ w.show_fl l.mw
    ++ "," ++ w.show_fl l.logp
    ++ "\n"

/-- Lines 407-425: the lines written for the slots `0 <= i < num_ligands`. -/
def report (w : World) (o : Options) (generation : Nat) (ligands : List ligand) : List String :=
  (List.range (num_ligands o)).map (fun i => csv_row w generation (ligands.getD i default))

/-- Lines 397-425, entered after the scorer has exited with status 0: the
re-read of the offspring, the sort and the csv lines. An exception of
`update` leaves through the handler of line 461. The averages of lines
427-458 go to the log only and are not part of the state. -/
def rank_report (w : World) (o : Options) (generation : Nat) (s : State) : State × Option Nat :=
  match reread w o (output_folder o generation) (List.range (num_children o)) s.ligands with
  | (updates, ligands, false) =>
    ({ s with ligands := ligands, trace := s.trace ++ updates }, some 1)
  | (updates, ligands, true) =>
    ({ s with
        ligands := rank w.sort ligands,
        csv := s.csv ++ report w o generation (rank w.sort ligands),
        trace := s.trace ++ updates ++ [Event.sort] }, none)

/-- The state when the futures have been collected (line 382): the tasks of
lines 363-370 are pushed and run. -/
def after_tasks (w : World) (o : Options) (generation : Nat) (s : State) : State :=
  { ligands :=
      (tp_run w s.ligands s.num_failures
        (create_tasks w o (ligand_folder o generation) s.eng_calls)).ligands,
    num_failures :=
      (tp_run w s.ligands s.num_failures
        (create_tasks w o (ligand_folder o generation) s.eng_calls)).num_failures,
    eng_calls := s.eng_calls + (create_tasks w o (ligand_folder o generation) s.eng_calls).length,
    csv := s.csv,
    trace := s.trace
      ++ (create_tasks w o (ligand_folder o generation) s.eng_calls).map Event.push_back
      ++ [Event.run] }

/-- The state when the scorer has exited (line 390). -/
def after_idock (w : World) (o : Options) (generation : Nat) (s : State) : State :=
  { after_tasks w o generation s with
    trace := (after_tasks w o generation s).trace ++ [Event.idock (idock_args o generation)] }

/-- The body of the loop, lines 349-458, for one value of `generation`: the
state it leaves and `some c` when `main` returns `c` from it (line 394, or
line 464 after an exception), `none` when the body reaches its end. -/
def generation (w : World) (o : Options) (idock_path : String) (g : Nat) (s : State) :
    State × Option Nat :=
  if !directories_created w o g then (s, some 1)
  else if (tp_run w s.ligands s.num_failures
      (create_tasks w o (ligand_folder o g) s.eng_calls)).thrown then
    (after_tasks w o g s, some 1)
  else if w.idock idock_path (idock_args o g) ≠ 0 then (after_idock w o g s, some 1)
  else rank_report w o g (after_idock w o g s)

/-! ## The loop and `main` -/

/-- Line 347: `for (size_t generation = 1; true; ++generation)`, run for at
most `fuel` passes from the value `g`. The exit code is `none` when all
`fuel` passes reached the end of the body. -/
def loop (w : World) (o : Options) (idock_path : String) :
    Nat → Nat → State → State × Option Nat
  | 0, _, s => (s, none)
  | fuel + 1, g, s =>
    match generation w o idock_path g s with
    | (s1, some c) => (s1, some c)
    | (s1, none) => loop w o idock_path fuel ((g + 1) % SIZE) s1

/-- The state before line 240. -/
def State.start : State :=
  { ligands := [], num_failures := 0, eng_calls := 0, csv := [], trace := [] }

/-- The function `main` (lines 55-466) with at most `fuel` generations: the
last state and the exit code, `none` while the loop is still running. -/
def main (w : World) (o : Options) (fuel : Nat) : State × Option Nat :=
  match process_options o with
  | some c => (State.start, some c)
  | none =>
    match load_elitists w o o.num_elitists 0 (w.initial_generation_csv.drop 1)
        (resize w (num_ligands o)) with
    | none => (State.start, some 1)
    | some ligands =>
      match w.find_idock with
      | none => ({ State.start with ligands := ligands }, some 1)
      | some idock_path =>
        loop w o idock_path fuel 1
          { ligands := ligands, num_failures := 0, eng_calls := 0,
            csv := [csv_header], trace := [] }

/-! ## The library sort

`ligands.sort()` (line 404) is `boost::ptr_vector::sort()`, which runs
`std::sort` on the vector of pointers and compares two pointers by
`operator<` on the ligands they point to. The definitions of this section
follow the `std::sort` of libstdc++ (GCC 12, bits/stl_algo.h, bits/stl_heap.h
and bits/stl_algobase.h) function by function: `__introsort_loop`, a
quicksort with the median of three as pivot that leaves ranges of at most 16
elements alone and turns to a heapsort when its depth limit is spent, and
then `__final_insertion_sort`.

A range `[first, last)` is a list and an iterator is a position in it. A loop
is a function of the number of passes it may still make, which is chosen so
that the loop of the library ends before it. The loops that the library runs
without a check of the bounds, because an element of the range stops them
(the two scans of `__unguarded_partition` and the loop of
`__unguarded_linear_insert`), stop here at the ends of the list as well. -/

namespace std

/-- The call `std::iter_swap(a, b)` on the positions `i` and `j` of the range. -/
def iter_swap (l : List ligand) (i j : Nat) : List ligand :=
  (l.set i (l.getD j default)).set j (l.getD i default)

/-- The function `__move_median_to_first(result, a, b, c, comp)`: the median
of the elements at `a`, `b` and `c` is swapped to `result`. -/
def move_median_to_first (l : List ligand) (result a b c : Nat) : List ligand :=
  if operator_lt (l.getD a default) (l.getD b default) then
    if operator_lt (l.getD b default) (l.getD c default) then iter_swap l result b
    else if operator_lt (l.getD a default) (l.getD c default) then iter_swap l result c
    else iter_swap l result a
  else if operator_lt (l.getD a default) (l.getD c default) then iter_swap l result a
  else if operator_lt (l.getD b default) (l.getD c default) then iter_swap l result c
  else iter_swap l result b

/-- The loop `while (comp(first, pivot)) ++first;` of `__unguarded_partition`,
for at most `n` steps: the position it stops at. In the library an element
not less than the pivot stops the loop inside the range. -/
def scan_up (l : List ligand) (pivot : Nat) : Nat → Nat → Nat
  | 0, first => first
  | n + 1, first =>
    if operator_lt (l.getD first default) (l.getD pivot default) then
      scan_up l pivot n (first + 1)
    else first

/-- The loop `while (comp(pivot, last)) --last;` of `__unguarded_partition`:
the position it stops at. The pivot stands at position 0, where the
comparison of the pivot with itself stops the loop. -/
def scan_down (l : List ligand) (pivot : Nat) : Nat → Nat
  | 0 => 0
  | last + 1 =>
    if operator_lt (l.getD pivot default) (l.getD (last + 1) default) then
      scan_down l pivot last
    else last + 1

/-- The function `__unguarded_partition(first, last, pivot, comp)`, for at
most `n` passes of its outer loop: the range afterwards and the position
returned. -/
def unguarded_partition (pivot : Nat) : Nat → List ligand → Nat → Nat → List ligand × Nat
  | 0, l, first, _ => (l, first)
  | n + 1, l, first, last =>
    if scan_up l pivot (l.length - first) first < scan_down l pivot (last - 1) then
      unguarded_partition pivot n
        (iter_swap l (scan_up l pivot (l.length - first) first) (scan_down l pivot (last - 1)))
        (scan_up l pivot (l.length - first) first + 1)
        (scan_down l pivot (last - 1))
    else (l, scan_up l pivot (l.length - first) first)

/-- The function `__unguarded_partition_pivot(first, last, comp)` on the
range `l`. -/
def unguarded_partition_pivot (l : List ligand) : List ligand × Nat :=
  unguarded_partition 0 l.length
    (move_median_to_first l 0 1 (l.length / 2) (l.length - 1)) 1 l.length

/-- The function `__push_heap(first, holeIndex, topIndex, value, comp)`, for
at most `n` passes of its loop. -/
def push_heap (value : ligand) (topIndex : Nat) : Nat → List ligand → Nat → List ligand
  | 0, l, holeIndex => l.set holeIndex value
  | n + 1, l, holeIndex =>
    if holeIndex > topIndex
        ∧ operator_lt (l.getD ((holeIndex - 1) / 2) default) value = true then
      push_heap value topIndex n
        (l.set holeIndex (l.getD ((holeIndex - 1) / 2) default)) ((holeIndex - 1) / 2)
    else l.set holeIndex value

/-- The child chosen in a pass of the first loop of `__adjust_heap`:
`secondChild = 2 * (secondChild + 1)`, less one when the element there is
less than its left neighbour. -/
def second_child (l : List ligand) (secondChild : Nat) : Nat :=
  if operator_lt (l.getD (2 * (secondChild + 1)) default)
      (l.getD (2 * (secondChild + 1) - 1) default) then 2 * (secondChild + 1) - 1
  else 2 * (secondChild + 1)

/-- The first loop of `__adjust_heap`, for at most `n` passes: the range, the
hole and `secondChild` afterwards. -/
def adjust_heap_loop (len : Nat) : Nat → List ligand → Nat → Nat → List ligand × Nat × Nat
  | 0, l, holeIndex, secondChild => (l, holeIndex, secondChild)
  | n + 1, l, holeIndex, secondChild =>
    if secondChild < (len - 1) / 2 then
      adjust_heap_loop len n (l.set holeIndex (l.getD (second_child l secondChild) default))
        (second_child l secondChild) (second_child l secondChild)
    else (l, holeIndex, secondChild)

/-- The function `__adjust_heap(first, holeIndex, len, value, comp)`, which
is called with `len >= 1`: the hole sinks to a leaf along the greater
children, a last child without a sibling moves up when `len` is even, and
`__push_heap` lets `value` rise from the hole. -/
def adjust_heap (l : List ligand) (holeIndex len : Nat) (value : ligand) : List ligand :=
  if len % 2 = 0 ∧ (adjust_heap_loop len len l holeIndex holeIndex).2.2 = (len - 2) / 2 then
    push_heap value holeIndex len
      ((adjust_heap_loop len len l holeIndex holeIndex).1.set
        (adjust_heap_loop len len l holeIndex holeIndex).2.1
        ((adjust_heap_loop len len l holeIndex holeIndex).1.getD
          (2 * ((adjust_heap_loop len len l holeIndex holeIndex).2.2 + 1) - 1) default))
      (2 * ((adjust_heap_loop len len l holeIndex holeIndex).2.2 + 1) - 1)
  else
    push_heap value holeIndex len (adjust_heap_loop len len l holeIndex holeIndex).1
      (adjust_heap_loop len len l holeIndex holeIndex).2.1

/-- The function `__pop_heap(first, last, result, comp)` with `first` the
start of the range. -/
def pop_heap (l : List ligand) (last result : Nat) : List ligand :=
  adjust_heap (l.set result (l.getD 0 default)) 0 last (l.getD result default)

/-- The loop of `__make_heap` from the value `parent` down to 0. -/
def make_heap_loop (len : Nat) : Nat → List ligand → List ligand
  | 0, l => adjust_heap l 0 len (l.getD 0 default)
  | parent + 1, l =>
    make_heap_loop len parent (adjust_heap l (parent + 1) len (l.getD (parent + 1) default))

/-- The function `__make_heap(first, last, comp)` on the first `len` elements. -/
def make_heap (l : List ligand) (len : Nat) : List ligand :=
  if len < 2 then l else make_heap_loop len ((len - 2) / 2) l

/-- The function `__sort_heap(first, last, comp)`. -/
def sort_heap : Nat → List ligand → List ligand
  | 0, l => l
  | last + 1, l => if last + 1 > 1 then sort_heap last (pop_heap l last last) else l

/-- The call `__partial_sort(first, last, last, comp)` of `__introsort_loop`:
`__heap_select` makes a heap of the whole range, its loop over
`[middle, last)` is empty, and `__sort_heap` sorts the heap. -/
def partial_sort (l : List ligand) : List ligand :=
  sort_heap l.length (make_heap l l.length)

/-- The function `__introsort_loop(first, last, depth_limit, comp)` on the
range `l`, with the threshold `_S_threshold = 16`. A pass of its loop
partitions the range at `cut`, calls itself on `[cut, last)` and goes on
with `[first, cut)`, both with the depth limit one less. -/
def introsort_loop : Nat → List ligand → List ligand
  | 0, l => if 16 < l.length then partial_sort l else l
  | depth_limit + 1, l =>
    if 16 < l.length then
      introsort_loop depth_limit
          ((unguarded_partition_pivot l).1.take (unguarded_partition_pivot l).2)
        ++ introsort_loop depth_limit
          ((unguarded_partition_pivot l).1.drop (unguarded_partition_pivot l).2)
    else l

/-- The function `__unguarded_linear_insert(last, comp)`, `val` being the
element taken from `last`. In the library an element not greater than `val`
stops the loop inside the range; here it stops at the start of the range as
well. -/
def unguarded_linear_insert (val : ligand) : List ligand → Nat → List ligand
  | l, 0 => l.set 0 val
  | l, last + 1 =>
    if operator_lt val (l.getD last default) then
      unguarded_linear_insert val (l.set (last + 1) (l.getD last default)) last
    else l.set (last + 1) val

/-- The body of the loop of `__insertion_sort` at the position `i`, the range
starting at position 0: an element less than the first is moved to the front
by `move_backward`, any other is inserted by `__unguarded_linear_insert`. -/
def insertion_sort_body (l : List ligand) (i : Nat) : List ligand :=
  if operator_lt (l.getD i default) (l.getD 0 default) then
    l.getD i default :: (l.take i ++ l.drop (i + 1))
  else unguarded_linear_insert (l.getD i default) l i

/-- The loop of `__insertion_sort` from the position `i`, `n` passes. -/
def insertion_sort_loop : Nat → Nat → List ligand → List ligand
  | 0, _, l => l
  | n + 1, i, l => insertion_sort_loop n (i + 1) (insertion_sort_body l i)

/-- The function `__insertion_sort(first, last, comp)` on the first `last`
positions. -/
def insertion_sort (l : List ligand) (last : Nat) : List ligand :=
  if last = 0 then l else insertion_sort_loop (last - 1) 1 l

/-- The function `__unguarded_insertion_sort(first, last, comp)`: `n` passes
from the position `i`. -/
def unguarded_insertion_sort : Nat → Nat → List ligand → List ligand
  | 0, _, l => l
  | n + 1, i, l =>
    unguarded_insertion_sort n (i + 1) (unguarded_linear_insert (l.getD i default) l i)

/-- The function `__final_insertion_sort(first, last, comp)`, with the
threshold `_S_threshold = 16`. -/
def final_insertion_sort (l : List ligand) : List ligand :=
  if 16 < l.length then
    unguarded_insertion_sort (l.length - 16) 16 (insertion_sort l 16)
  else insertion_sort l l.length

/-- The builtin `__builtin_clzl(n)` of a 64-bit word `n > 0`: the number of
zero bits above the highest one bit, `k` bits still to be looked at. -/
def clzl : Nat → Nat → Nat
  | 0, _ => 0
  | k + 1, n => if 2 ^ k ≤ n then 0 else clzl k n + 1

/-- The function `__lg(n)` (bits/stl_algobase.h) at the type `long`:
`sizeof(long) * CHAR_BIT - 1 - __builtin_clzl(n)`. -/
def lg (n : Nat) : Nat :=
  8 * 8 - 1 - clzl 64 n

/-- The function `__sort(first, last, comp)`, which `std::sort` calls. -/
def sort (l : List ligand) : List ligand :=
  if l.length = 0 then l
  else final_insertion_sort (introsort_loop (lg l.length * 2) l)

end std

/-- Line 404, `ligands.sort()` of `boost::ptr_vector<ligand>`: `std::sort`
over the vector of pointers, two pointers compared by `operator<` on the
ligands they point to. -/
def ptr_vector_sort (ligands : List ligand) : List ligand :=
  std.sort ligands

/-! ## Properties named in the theorems -/

/-- Ties keep their slot order: for every free energy `e`, the ligands with
free energy `e` stand in `after` in the order in which they stand in
`before`. -/
def ties_in_slot_order (before after : List ligand) : Prop :=
  ∀ e : fl, after.filter (fun l => decide (l.free_energy = e))
    = before.filter (fun l => decide (l.free_energy = e))

/-- The element `val` stands in `r` where the insertion into the sorted range
`A` puts it: after the elements not greater, before the elements greater. -/
def inserted (val : ligand) (A r : List ligand) : Prop :=
  ∃ A1 A2, A = A1 ++ A2 ∧ r = A1 ++ val :: A2
    ∧ (∀ x ∈ A1, operator_lt val x = false) ∧ (∀ x ∈ A2, operator_lt val x = true)

/-- The sum `num_elitists + num_mutants + num_crossovers` is a `size_t`. -/
def population_fits (o : Options) : Prop :=
  o.num_elitists + o.num_mutants + o.num_crossovers < SIZE

/-! ## Examples -/

/-- A ligand with the given file and free energy. -/
def ligand.of (p : String) (free_energy : fl) : ligand :=
  { (default : ligand) with p := p, free_energy := free_energy }

/-- A population of three slots; the first and the last ligand tie. -/
def tied_population : List ligand :=
  [ligand.of "1.pdbqt" (-7), ligand.of "2.pdbqt" (-9), ligand.of "3.pdbqt" (-7)]

/-- The value of a decimal digit character. -/
def digit_value (c : Char) : Nat :=
  c.toNat - 48

/-- The options of a run with 10 elitists, 20 mutants and 20 crossovers, the
defaults of lines 76-78, every check of lines 148-232 passing. -/
def default_options : Options :=
  { argc := 9, parse_throws := false,
    initial_generation_csv_exists := true, initial_generation_csv_is_regular_file := true,
    initial_generation_folder_exists := true, initial_generation_folder_is_directory := true,
    fragment_folder_exists := true, fragment_folder_is_directory := true,
    idock_config_exists := true, idock_config_is_regular_file := true,
    create_directories_output_folder := true,
    log_path_is_directory := false, csv_path_is_directory := false,
    initial_generation_folder_path := "initial", idock_config_path := "idock.cfg",
    output_folder_path := "output",
    num_threads := 4, seed := 2012, num_elitists := 10, num_mutants := 20,
    num_crossovers := 20, max_failures := 1000, max_mw := 500, max_logp := 5, min_logp := -5 }

/-- A world for examples: three seed rows, every file readable, every
directory created, memory that holds zeros where `resize` makes its
ligands, an engine that counts up from the seed, tasks that throw
when `task_throws` says so and otherwise store a ligand named after their
file, a scorer that exits with `exit_status`, an `update` that sets the free
energy to the length of the file name, and the library sort. -/
def sample_world (task_throws : Bool) (exit_status : Int) : World :=
  { initial_generation_csv :=
      ["Ligand,Conf,FE1,FE2,FE3,FE4,FE5,FE6,FE7,FE8,FE9".data,
       "ZINC01,1,-7.512,-7.2,-7.1,-7.0,-6.9,-6.8,-6.7,-6.6,-6.5".data,
       "ZINC02,3,-8.003,-7.9,-7.1,-7.0,-6.9,-6.8,-6.7,-6.6,-6.5".data,
       "ZINC03,2,-6.250,-6.2,-6.1,-6.0,-5.9,-5.8,-5.7,-5.6,-5.5".data],
    default_constructed := fun _ => default,
    new_ligand := fun p => some (ligand.of p 0),
    lexical_cast_fl := fun t => some (-(t.length : ℚ)),
    find_idock := some "/usr/bin/idock",
    mt19937 := fun seed k => seed + k,
    create_directory := fun _ => true,
    run_task := fun t _ n => (if task_throws then none else some (ligand.of t.p 0), n),
    idock := fun _ _ => exit_status,
    update := fun file l => some { l with free_energy := -(file.length : ℚ) },
    sort := ptr_vector_sort,
    show_fl := fun _ => "fl",
    show_path := fun p => p }

/-- The options `--elitists 1 --mutants 2 --crossovers 18446744073709551615`,
whose sizes add up to `2^64 + 2`. -/
def wrapped_options : Options :=
  { default_options with num_elitists := 1, num_mutants := 2, num_crossovers := 2 ^ 64 - 1 }

/-- The options of a small run: one elitist, one mutant, one crossover. -/
def small_options : Options :=
  { default_options with num_elitists := 1, num_mutants := 1, num_crossovers := 1 }

/-- The options of a run with seventeen slots: one elitist, eight mutants,
eight crossovers. -/
def seventeen_options : Options :=
  { default_options with num_elitists := 1, num_mutants := 8, num_crossovers := 8 }

/-- The free energy that the scorer of the run with seventeen slots leaves in
the output file of each of the sixteen offspring of generation 1. -/
def tie_free_energy (file : String) : fl :=
  ([("output/1/output/1.pdbqt", (-8 : fl)), ("output/1/output/2.pdbqt", -7),
    ("output/1/output/3.pdbqt", -6), ("output/1/output/4.pdbqt", -5),
    ("output/1/output/5.pdbqt", -4), ("output/1/output/6.pdbqt", -3),
    ("output/1/output/7.pdbqt", -2), ("output/1/output/8.pdbqt", -9),
    ("output/1/output/9.pdbqt", -1), ("output/1/output/10.pdbqt", -10),
    ("output/1/output/11.pdbqt", -11), ("output/1/output/12.pdbqt", -12),
    ("output/1/output/13.pdbqt", -13), ("output/1/output/14.pdbqt", -14),
    ("output/1/output/15.pdbqt", -15), ("output/1/output/16.pdbqt", -16)].lookup file).getD 0

/-- The example world with one seed row, of free energy `-9.000`, a
conversion that reads this text as -9, and an `update` that takes the free
energy of an offspring from `tie_free_energy`: the offspring of the file
`8.pdbqt` ties with the elitist at -9. -/
def tie_world : World :=
  { sample_world false 0 with
    initial_generation_csv :=
      ["Ligand,Conf,FE1,FE2,FE3,FE4,FE5,FE6,FE7,FE8,FE9".data,
       "ZINC01,1,-9.000,-8.9,-8.8,-8.7,-8.6,-8.5,-8.4,-8.3,-8.2".data],
    lexical_cast_fl := fun t => if t = "-9.000".data then some (-9) else none,
    update := fun file l => some { l with free_energy := tie_free_energy file } }

/-- The state with which the run with seventeen slots enters the loop in
`tie_world`: the seed row is loaded into slot 0. -/
def tie_start : State :=
  { ligands := ligand.of "initial/ZINC01.pdbqt" (-9) :: List.replicate 16 default,
    num_failures := 0, eng_calls := 0, csv := [csv_header], trace := [] }

/-- The population of the run with seventeen slots in `tie_world` when
generation 1 reaches the sort of line 404: the elitist in slot 1 and the
sixteen offspring in the slots 2 to 17, with the free energies -9, -8, -7,
-6, -5, -4, -3, -2, -9, -1, -10, -11, -12, -13, -14, -15, -16. The ligands of
the slots 1 and 9 tie at -9. -/
def tied_seventeen : List ligand :=
  [ligand.of "initial/ZINC01.pdbqt" (-9), ligand.of "output/1/ligand/1.pdbqt" (-8),
   ligand.of "output/1/ligand/2.pdbqt" (-7), ligand.of "output/1/ligand/3.pdbqt" (-6),
   ligand.of "output/1/ligand/4.pdbqt" (-5), ligand.of "output/1/ligand/5.pdbqt" (-4),
   ligand.of "output/1/ligand/6.pdbqt" (-3), ligand.of "output/1/ligand/7.pdbqt" (-2),
   ligand.of "output/1/ligand/8.pdbqt" (-9), ligand.of "output/1/ligand/9.pdbqt" (-1),
   ligand.of "output/1/ligand/10.pdbqt" (-10), ligand.of "output/1/ligand/11.pdbqt" (-11),
   ligand.of "output/1/ligand/12.pdbqt" (-12), ligand.of "output/1/ligand/13.pdbqt" (-13),
   ligand.of "output/1/ligand/14.pdbqt" (-14), ligand.of "output/1/ligand/15.pdbqt" (-15),
   ligand.of "output/1/ligand/16.pdbqt" (-16)]

/-- A state of the small run at the top of the loop body. -/
def small_state : State :=
  { ligands := [ligand.of "initial/ZINC01.pdbqt" (-7), default, default],
    num_failures := 0, eng_calls := 0, csv := [csv_header], trace := [] }

/-- Whether an event is a call of the scorer. -/
def Event.is_idock : Event → Bool
  | Event.idock _ => true
  | _ => false

/-- A state of a run with the default sizes at the top of the loop body. -/
def default_state : State :=
  { ligands := List.replicate 50 default, num_failures := 0, eng_calls := 0,
    csv := [csv_header], trace := [] }

/-! ## Runs: the entry into the loop and the passes made -/

/-- Lines 270-277 for one row: the ligand stored in the slot of the row,
`none` when `substr`, the ligand constructor or `right_cast` throws. -/
def seed_ligand (w : World) (o : Options) (line : List Char) : Option ligand :=
  match seed_path o.initial_generation_folder_path line with
  | none => none
  | some file =>
    match w.new_ligand file with
    | none => none
    | some l =>
      match seed_free_energy w.lexical_cast_fl line with
      | none => none
      | some fe => some { l with free_energy := fe }

/-- The path of the scorer and the state with which `main` enters the loop
of line 347, `none` when `main` returns before it. -/
def enter_loop (w : World) (o : Options) : Option (String × State) :=
  match process_options o with
  | some _ => none
  | none =>
    match load_elitists w o o.num_elitists 0 (w.initial_generation_csv.drop 1)
        (resize w (num_ligands o)) with
    | none => none
    | some ligands =>
      match w.find_idock with
      | none => none
      | some idock_path =>
        some (idock_path,
          { ligands := ligands, num_failures := 0, eng_calls := 0,
            csv := [csv_header], trace := [] })

/-- The value of `generation` and the state at the top of the loop body
after `n` passes that reached the end of the body, starting from the value
`g` and the state `s`; `none` when one of these passes returned. -/
def top_of_pass (w : World) (o : Options) (idock_path : String) :
    Nat → Nat → State → Option (Nat × State)
  | 0, g, s => some (g, s)
  | n + 1, g, s =>
    match generation w o idock_path g s with
    | (_, some _) => none
    | (s1, none) => top_of_pass w o idock_path n ((g + 1) % SIZE) s1

/-! ## The retry loop of a task -/

/-- Modelled from the spec: the retry loop of `operation::mutation_task` and
`operation::crossover_task`, which are declared in operation.hpp and missing
from the source files. `attempt k` is the outcome of try number `k` of the
operator: `some l` for a child that passes the checks, `none` for an
operator failure. Each failure increments the shared counter; once the
counter has reached `max_failures` the failure budget is exceeded and the
task raises, which is the result `none`; otherwise the operator is tried
again. The first argument bounds the tries that are left, `max_failures`
minus the counter. -/
def operation_retry (max_failures : Nat) (attempt : Nat → Option ligand) :
    Nat → Nat → Nat → Option ligand × Nat
  | 0, k, n =>
    match attempt k with
    | some l => (some l, n)
    | none => (none, n + 1)
  | fuel + 1, k, n =>
    match attempt k with
    | some l => (some l, n)
    | none =>
      if max_failures ≤ n + 1 then (none, n + 1)
      else operation_retry max_failures attempt fuel (k + 1) (n + 1)

/-- The example world with one seed row after the header, whose first free
energy is the four characters `-7.5`, and with a conversion to `fl` that, as
`lexical_cast<fl>` does, throws on a text with a comma in it. -/
def strict_world : World :=
  { sample_world false 0 with
    initial_generation_csv :=
      ["Ligand,Conf,FE1,FE2,FE3,FE4,FE5,FE6,FE7,FE8,FE9".data,
       "ZINC01,1,-7.5,-7.2,-7.1,-7.0,-6.9,-6.8,-6.7,-6.6,-6.5".data],
    lexical_cast_fl := fun t => if ',' ∈ t then none else some (-(t.length : ℚ)) }

/-- The options `--elitists 3 --mutants 18446744073709551614 --crossovers 0`,
whose sizes add up to `2^64 + 1`. -/
def wrapped_population_options : Options :=
  { default_options with num_elitists := 3, num_mutants := 2 ^ 64 - 2, num_crossovers := 0 }

/-- The state with which the small run enters the loop in the example world:
the first seed row is loaded into slot 0. -/
def small_start : State :=
  { ligands := [ligand.of "initial/ZINC01.pdbqt" (-6), default, default],
    num_failures := 0, eng_calls := 0, csv := [csv_header], trace := [] }


/-! # Theorems -/

/-! ## Lemmas on the start-up -/

theorem resize_length (w : World) (n : Nat) : (resize w n).length = n := by
  simp [resize]

theorem resize_getD (w : World) (n j : Nat) (h : j < n) :
    (resize w n).getD j default = w.default_constructed j := by
  simp [resize, List.getD_eq_getElem?_getD, h]

/-! ## Lemmas on the order of the ligands -/

theorem operator_lt_eq_false_iff (a b : ligand) :
    operator_lt b a = false ↔ a.free_energy ≤ b.free_energy := by
  simp [operator_lt]

/-- In a list in ascending order of free energy the ligands of one free
energy form a block: those below it, then the block, then those above. -/
theorem sorted_blocks (e : fl) (l : List ligand)
    (h : l.Pairwise (fun a b => a.free_energy ≤ b.free_energy)) :
    l = l.filter (fun x => decide (x.free_energy < e))
        ++ l.filter (fun x => decide (x.free_energy = e))
        ++ l.filter (fun x => decide (e < x.free_energy)) := by
  induction l with
  | nil => simp
  | cons a t ih =>
    rw [List.pairwise_cons] at h
    have iht := ih h.2
    rcases lt_trichotomy a.free_energy e with hlt | heq | hgt
    · have h1 : ¬ a.free_energy = e := ne_of_lt hlt
      have h2 : ¬ e < a.free_energy := not_lt.2 (le_of_lt hlt)
      simp only [List.filter_cons, hlt, h1, h2, decide_True, decide_False, if_true,
        Bool.false_eq_true, if_false, List.cons_append]
      exact congrArg (List.cons a) iht
    · have h1 : ¬ a.free_energy < e := by rw [heq]; exact lt_irrefl e
      have h2 : ¬ e < a.free_energy := by rw [heq]; exact lt_irrefl e
      have hnil : t.filter (fun x => decide (x.free_energy < e)) = [] := by
        rw [List.filter_eq_nil_iff]
        intro x hx
        have := h.1 x hx
        simp only [decide_eq_true_eq, not_lt]
        rw [← heq]; exact this
      simp only [List.filter_cons, heq, lt_irrefl, decide_True, decide_False, if_true,
        Bool.false_eq_true, if_false, List.cons_append, hnil, List.nil_append]
      rw [hnil] at iht
      simpa using iht
    · have h1 : ¬ a.free_energy < e := not_lt.2 (le_of_lt hgt)
      have h2 : ¬ a.free_energy = e := ne_of_gt hgt
      have hnil1 : t.filter (fun x => decide (x.free_energy < e)) = [] := by
        rw [List.filter_eq_nil_iff]
        intro x hx
        have := h.1 x hx
        simp only [decide_eq_true_eq, not_lt]
        exact le_trans (le_of_lt hgt) this
      have hnil2 : t.filter (fun x => decide (x.free_energy = e)) = [] := by
        rw [List.filter_eq_nil_iff]
        intro x hx
        have := h.1 x hx
        simp only [decide_eq_true_eq]
        exact ne_of_gt (lt_of_lt_of_le hgt this)
      simp only [List.filter_cons, hgt, h1, h2, decide_True, decide_False, if_true,
        Bool.false_eq_true, if_false, hnil1, hnil2, List.nil_append]
      rw [hnil1, hnil2] at iht
      simpa using iht

/-! ## Lemmas on the library sort: permutations -/

namespace std

theorem getD_cons_set_perm (a : ligand) :
    ∀ (t : List ligand) (j : Nat), j < t.length →
      (t.getD j default :: t.set j a).Perm (a :: t) := by
  intro t
  induction t with
  | nil => intro j h; simp at h
  | cons c t ih =>
    intro j h
    cases j with
    | zero => exact List.Perm.swap a c t
    | succ j =>
      have hj : j < t.length := by simpa using h
      simp only [List.getD_cons_succ, List.set_cons_succ]
      exact (List.Perm.swap c (t.getD j default) (t.set j a)).trans
        (((ih j hj).cons c).trans (List.Perm.swap a c t))

theorem iter_swap_length (l : List ligand) (i j : Nat) :
    (iter_swap l i j).length = l.length := by
  simp [iter_swap]

/-- Swapping two positions of a list gives a permutation of it. -/
theorem iter_swap_perm :
    ∀ (l : List ligand) (i j : Nat), i < l.length → j < l.length →
      (iter_swap l i j).Perm l := by
  intro l
  induction l with
  | nil => intro i j h; simp at h
  | cons a t ih =>
    intro i j hi hj
    cases i with
    | zero =>
      cases j with
      | zero => simp [iter_swap]
      | succ j =>
        have hj2 : j < t.length := by simpa using hj
        simpa [iter_swap] using getD_cons_set_perm a t j hj2
    | succ i =>
      have hi2 : i < t.length := by simpa using hi
      cases j with
      | zero =>
        have h := getD_cons_set_perm a t i hi2
        simpa [iter_swap] using h
      | succ j =>
        have hj2 : j < t.length := by simpa using hj
        have h := ih i j hi2 hj2
        simpa [iter_swap] using h

/-- Moving the element of `j` into the hole at `i` and the value into the
hole left at `j` is, up to a permutation, putting the value into the hole
at `i`. -/
theorem set_set_perm (l : List ligand) (i j : Nat) (v : ligand)
    (hi : i < l.length) (hj : j < l.length) :
    ((l.set i (l.getD j default)).set j v).Perm (l.set i v) := by
  by_cases hij : i = j
  · subst hij
    simp
  · have h := iter_swap_perm (l.set i v) i j (by simpa using hi) (by simpa using hj)
    have e : iter_swap (l.set i v) i j = (l.set i (l.getD j default)).set j v := by
      unfold iter_swap
      have h1 : (l.set i v).getD j default = l.getD j default := by
        simp only [List.getD_eq_getElem?_getD, List.getElem?_set_ne hij]
      have h2 : (l.set i v).getD i default = v := by
        simp only [List.getD_eq_getElem?_getD, List.getElem?_set_self hi, Option.getD_some]
      rw [h1, h2, List.set_set]
    rw [e] at h
    exact h

theorem move_median_to_first_perm (l : List ligand) (result a b c : Nat)
    (hr : result < l.length) (ha : a < l.length) (hb : b < l.length) (hc : c < l.length) :
    (move_median_to_first l result a b c).Perm l ∧
      (move_median_to_first l result a b c).length = l.length := by
  unfold move_median_to_first
  repeat' split
  all_goals exact ⟨iter_swap_perm l _ _ hr (by assumption), iter_swap_length l _ _⟩

theorem scan_down_le (l : List ligand) (pivot : Nat) : ∀ last, scan_down l pivot last ≤ last := by
  intro last
  induction last with
  | zero => simp [scan_down]
  | succ n ih =>
    rw [scan_down]
    split
    · omega
    · exact le_refl _

theorem unguarded_partition_perm (pivot : Nat) :
    ∀ (n : Nat) (l : List ligand) (first last : Nat), last ≤ l.length →
      (unguarded_partition pivot n l first last).1.Perm l := by
  intro n
  induction n with
  | zero => intro l first last _; exact List.Perm.refl l
  | succ n ih =>
    intro l first last hlast
    rw [unguarded_partition]
    split
    · rename_i hlt
      have hdown := scan_down_le l pivot (last - 1)
      have h1 : scan_down l pivot (last - 1) < l.length := by omega
      have h2 : scan_up l pivot (l.length - first) first < l.length := by omega
      refine (ih _ _ _ ?_).trans (iter_swap_perm l _ _ h2 h1)
      rw [iter_swap_length]
      omega
    · exact List.Perm.refl l

theorem unguarded_partition_pivot_perm (l : List ligand) (h : 16 < l.length) :
    (unguarded_partition_pivot l).1.Perm l := by
  unfold unguarded_partition_pivot
  obtain ⟨hp, hlen⟩ := move_median_to_first_perm l 0 1 (l.length / 2) (l.length - 1)
    (by omega) (by omega) (by omega) (by omega)
  exact (unguarded_partition_perm 0 _ _ _ _ (by rw [hlen])).trans hp

theorem set_getD_self : ∀ (l : List ligand) (i : Nat), l.set i (l.getD i default) = l := by
  intro l
  induction l with
  | nil => intro i; rfl
  | cons a t ih =>
    intro i
    cases i with
    | zero => rfl
    | succ i => simp only [List.getD_cons_succ, List.set_cons_succ, ih i]

theorem push_heap_perm (value : ligand) (topIndex : Nat) :
    ∀ (n : Nat) (l : List ligand) (holeIndex : Nat), holeIndex < l.length →
      (push_heap value topIndex n l holeIndex).Perm (l.set holeIndex value) := by
  intro n
  induction n with
  | zero => intro l holeIndex _; exact List.Perm.refl _
  | succ n ih =>
    intro l holeIndex h
    rw [push_heap]
    split
    · have hp : (holeIndex - 1) / 2 < l.length := by omega
      refine (ih _ _ (by simpa using hp)).trans ?_
      exact set_set_perm l holeIndex ((holeIndex - 1) / 2) value h hp
    · exact List.Perm.refl _

theorem second_child_cases (l : List ligand) (secondChild : Nat) :
    second_child l secondChild = 2 * (secondChild + 1) - 1
      ∨ second_child l secondChild = 2 * (secondChild + 1) := by
  unfold second_child
  split
  · exact Or.inl rfl
  · exact Or.inr rfl

theorem adjust_heap_loop_perm (len : Nat) :
    ∀ (n : Nat) (l : List ligand) (holeIndex secondChild : Nat),
      holeIndex < l.length → len ≤ l.length →
      (adjust_heap_loop len n l holeIndex secondChild).2.1
          < (adjust_heap_loop len n l holeIndex secondChild).1.length
        ∧ (adjust_heap_loop len n l holeIndex secondChild).1.length = l.length
        ∧ ∀ value : ligand,
            ((adjust_heap_loop len n l holeIndex secondChild).1.set
              (adjust_heap_loop len n l holeIndex secondChild).2.1 value).Perm
                (l.set holeIndex value) := by
  intro n
  induction n with
  | zero =>
    intro l holeIndex secondChild h _
    exact ⟨h, rfl, fun _ => List.Perm.refl _⟩
  | succ n ih =>
    intro l holeIndex secondChild h hlen
    rw [adjust_heap_loop]
    split
    · rename_i hlt
      have hc : second_child l secondChild < l.length := by
        rcases second_child_cases l secondChild with e | e <;> rw [e] <;> omega
      obtain ⟨h1, h2, h3⟩ := ih (l.set holeIndex (l.getD (second_child l secondChild) default))
        (second_child l secondChild) (second_child l secondChild)
        (by simpa using hc) (by simpa using hlen)
      refine ⟨h1, by simpa using h2, fun value => (h3 value).trans ?_⟩
      exact set_set_perm l holeIndex (second_child l secondChild) value h hc
    · exact ⟨h, rfl, fun _ => List.Perm.refl _⟩

theorem adjust_heap_perm (l : List ligand) (holeIndex len : Nat) (value : ligand)
    (h : holeIndex < l.length) (hlen : len ≤ l.length) (hpos : 0 < len) :
    (adjust_heap l holeIndex len value).Perm (l.set holeIndex value) := by
  obtain ⟨h1, h2, h3⟩ := adjust_heap_loop_perm len len l holeIndex holeIndex h hlen
  unfold adjust_heap
  split
  · rename_i hev
    obtain ⟨hmod, hsc⟩ := hev
    have hk : 2 * ((adjust_heap_loop len len l holeIndex holeIndex).2.2 + 1) - 1
        < (adjust_heap_loop len len l holeIndex holeIndex).1.length := by
      rw [hsc, h2]
      omega
    refine (push_heap_perm value holeIndex len _ _ (by simpa using hk)).trans ?_
    exact (set_set_perm _ _ _ value h1 hk).trans (h3 value)
  · exact (push_heap_perm value holeIndex len _ _ h1).trans (h3 value)

theorem pop_heap_perm (l : List ligand) (last result : Nat)
    (hr : result < l.length) (hlast : last ≤ l.length) (hpos : 0 < last) :
    (pop_heap l last result).Perm l := by
  unfold pop_heap
  have h0 : 0 < l.length := by omega
  refine (adjust_heap_perm _ 0 last _ (by simpa using h0) (by simpa using hlast) hpos).trans ?_
  refine (set_set_perm l result 0 (l.getD result default) hr h0).trans ?_
  rw [set_getD_self]

theorem make_heap_loop_perm (len : Nat) :
    ∀ (parent : Nat) (l : List ligand), parent < l.length → len ≤ l.length → 0 < len →
      (make_heap_loop len parent l).Perm l := by
  intro parent
  induction parent with
  | zero =>
    intro l h hlen hpos
    rw [make_heap_loop]
    refine (adjust_heap_perm l 0 len _ h hlen hpos).trans ?_
    rw [set_getD_self]
  | succ parent ih =>
    intro l h hlen hpos
    rw [make_heap_loop]
    have hp : (adjust_heap l (parent + 1) len (l.getD (parent + 1) default)).Perm l := by
      refine (adjust_heap_perm l (parent + 1) len _ h hlen hpos).trans ?_
      rw [set_getD_self]
    refine (ih _ ?_ ?_ hpos).trans hp
    · rw [hp.length_eq]; omega
    · rw [hp.length_eq]; exact hlen

theorem make_heap_perm (l : List ligand) (len : Nat) (hlen : len ≤ l.length) :
    (make_heap l len).Perm l := by
  unfold make_heap
  split
  · exact List.Perm.refl l
  · exact make_heap_loop_perm len _ l (by omega) hlen (by omega)

theorem sort_heap_perm :
    ∀ (last : Nat) (l : List ligand), last ≤ l.length → (sort_heap last l).Perm l := by
  intro last
  induction last with
  | zero => intro l _; exact List.Perm.refl l
  | succ last ih =>
    intro l h
    rw [sort_heap]
    split
    · have hp := pop_heap_perm l last last (by omega) (by omega) (by omega)
      refine (ih _ ?_).trans hp
      rw [hp.length_eq]; omega
    · exact List.Perm.refl l

theorem partial_sort_perm (l : List ligand) : (partial_sort l).Perm l := by
  unfold partial_sort
  have hp := make_heap_perm l l.length (le_refl _)
  exact (sort_heap_perm _ _ (by rw [hp.length_eq])).trans hp

theorem introsort_loop_perm :
    ∀ (depth_limit : Nat) (l : List ligand), (introsort_loop depth_limit l).Perm l := by
  intro depth_limit
  induction depth_limit with
  | zero =>
    intro l
    rw [introsort_loop]
    split
    · exact partial_sort_perm l
    · exact List.Perm.refl l
  | succ depth_limit ih =>
    intro l
    rw [introsort_loop]
    split
    · rename_i h
      refine ((ih _).append (ih _)).trans ?_
      rw [List.take_append_drop]
      exact unguarded_partition_pivot_perm l h
    · exact List.Perm.refl l

/-! ## Lemmas on the library sort: the passes allowed to its loops are enough -/

theorem scan_up_ge (l : List ligand) (pivot : Nat) :
    ∀ (n first : Nat), first ≤ scan_up l pivot n first := by
  intro n
  induction n with
  | zero => intro first; exact le_refl _
  | succ n ih =>
    intro first
    rw [scan_up]
    split
    · exact le_trans (Nat.le_succ first) (ih (first + 1))
    · exact le_refl _

/-- The outer loop of `__unguarded_partition` ends within `last - first`
passes: allowing it more passes changes nothing. -/
theorem unguarded_partition_passes (pivot : Nat) :
    ∀ (n m : Nat) (l : List ligand) (first last : Nat),
      last - first < n → last - first < m →
      unguarded_partition pivot n l first last = unguarded_partition pivot m l first last := by
  intro n
  induction n with
  | zero => intro m l first last h; omega
  | succ n ih =>
    intro m l first last hn hm
    cases m with
    | zero => omega
    | succ m =>
      rw [unguarded_partition, unguarded_partition]
      split
      · rename_i hlt
        have h1 := scan_up_ge l pivot (l.length - first) first
        have h2 := scan_down_le l pivot (last - 1)
        exact ih m _ _ _ (by omega) (by omega)
      · rfl

/-- The loop of `__push_heap` ends within `holeIndex` passes. -/
theorem push_heap_passes (value : ligand) (topIndex : Nat) :
    ∀ (n m : Nat) (l : List ligand) (holeIndex : Nat), holeIndex ≤ n → holeIndex ≤ m →
      push_heap value topIndex n l holeIndex = push_heap value topIndex m l holeIndex := by
  intro n
  induction n with
  | zero =>
    intro m l holeIndex hn _
    have h0 : holeIndex = 0 := by omega
    subst h0
    cases m with
    | zero => rfl
    | succ m => simp [push_heap]
  | succ n ih =>
    intro m l holeIndex hn hm
    cases m with
    | zero =>
      have h0 : holeIndex = 0 := by omega
      subst h0
      simp [push_heap]
    | succ m =>
      rw [push_heap, push_heap]
      split
      · rename_i hc
        exact ih m _ _ (by omega) (by omega)
      · rfl

/-- The first loop of `__adjust_heap` ends within `(len - 1) / 2 - secondChild`
passes. -/
theorem adjust_heap_loop_passes (len : Nat) :
    ∀ (n m : Nat) (l : List ligand) (holeIndex secondChild : Nat),
      (len - 1) / 2 - secondChild ≤ n → (len - 1) / 2 - secondChild ≤ m →
      adjust_heap_loop len n l holeIndex secondChild
        = adjust_heap_loop len m l holeIndex secondChild := by
  intro n
  induction n with
  | zero =>
    intro m l holeIndex secondChild hn _
    cases m with
    | zero => rfl
    | succ m => rw [adjust_heap_loop, adjust_heap_loop, if_neg (by omega)]
  | succ n ih =>
    intro m l holeIndex secondChild hn hm
    cases m with
    | zero => rw [adjust_heap_loop, adjust_heap_loop, if_neg (by omega)]
    | succ m =>
      rw [adjust_heap_loop, adjust_heap_loop]
      split
      · have hc : secondChild < second_child l secondChild := by
          rcases second_child_cases l secondChild with e | e <;> rw [e] <;> omega
        exact ih m _ _ _ (by omega) (by omega)
      · rfl

/-! ## Lemmas on the library sort: the final insertion sort -/


theorem getD_append_length (A : List ligand) (h : ligand) (B : List ligand) :
    (A ++ h :: B).getD A.length default = h := by
  induction A with
  | nil => rfl
  | cons a A ih => simpa using ih

theorem set_append_length (A : List ligand) (h : ligand) (B : List ligand) (v : ligand) :
    (A ++ h :: B).set A.length v = A ++ v :: B := by
  induction A with
  | nil => rfl
  | cons a A ih => simp [ih]

theorem unguarded_linear_insert_spec (val : ligand) :
    ∀ A : List ligand, A.Pairwise (fun a b => operator_lt b a = false) →
      ∀ (h : ligand) (B : List ligand), ∃ r, inserted val A r
        ∧ unguarded_linear_insert val (A ++ h :: B) A.length = r ++ B := by
  intro A
  induction A using List.reverseRecOn with
  | nil =>
    intro _ h B
    exact ⟨[val], ⟨[], [], rfl, rfl, by simp, by simp⟩, rfl⟩
  | append_singleton A x ih =>
    intro hs h B
    rw [List.pairwise_append] at hs
    obtain ⟨hA, -, hAx⟩ := hs
    have hlen : (A ++ [x]).length = A.length + 1 := by simp
    have hl : A ++ [x] ++ h :: B = A ++ x :: h :: B := by simp
    rw [hlen, unguarded_linear_insert, hl, getD_append_length]
    split
    · rename_i hlt
      have hset : (A ++ x :: h :: B).set (A.length + 1) x = A ++ x :: x :: B := by
        simp
      rw [hset]
      obtain ⟨r, ⟨A1, A2, e1, e2, h1, h2⟩, hr⟩ := ih hA x (x :: B)
      refine ⟨r ++ [x], ⟨A1, A2 ++ [x], by simp [e1], by simp [e2], h1, ?_⟩, by simp [hr]⟩
      intro y hy
      rcases List.mem_append.1 hy with hy | hy
      · exact h2 y hy
      · rw [List.mem_singleton.1 hy]; exact hlt
    · rename_i hlt
      have hset : (A ++ x :: h :: B).set (A.length + 1) val = A ++ x :: val :: B := by
        simp
      rw [hset]
      refine ⟨A ++ [x] ++ [val], ⟨A ++ [x], [], by simp, by simp, ?_, by simp⟩, by simp⟩
      intro y hy
      have hx : operator_lt val x = false := by simpa using hlt
      rcases List.mem_append.1 hy with hy | hy
      · have h1 := hAx y hy x (List.mem_singleton.2 rfl)
        rw [operator_lt_eq_false_iff] at h1 hx ⊢
        exact le_trans h1 hx
      · rw [List.mem_singleton.1 hy]; exact hx

theorem insertion_sort_body_spec (A : List ligand)
    (hs : A.Pairwise (fun a b => operator_lt b a = false)) (v : ligand) (B : List ligand) :
    ∃ r, inserted v A r ∧ insertion_sort_body (A ++ v :: B) A.length = r ++ B := by
  unfold insertion_sort_body
  rw [getD_append_length]
  split
  · rename_i hlt
    refine ⟨v :: A, ⟨[], A, rfl, rfl, by simp, ?_⟩, ?_⟩
    · cases A with
      | nil => simp
      | cons a A =>
        have hva : operator_lt v a = true := by simpa using hlt
        intro x hx
        rcases List.mem_cons.1 hx with hx | hx
        · rw [hx]; exact hva
        · have h1 := (List.pairwise_cons.1 hs).1 x hx
          rw [operator_lt_eq_false_iff] at h1
          simp only [operator_lt, decide_eq_true_eq] at hva ⊢
          exact lt_of_lt_of_le hva h1
    · simp
  · exact unguarded_linear_insert_spec v A hs v B

theorem inserted_sorted (val : ligand) (A r : List ligand)
    (hs : A.Pairwise (fun a b => operator_lt b a = false)) (h : inserted val A r) :
    r.Pairwise (fun a b => operator_lt b a = false) := by
  obtain ⟨A1, A2, e1, e2, h1, h2⟩ := h
  subst e1 e2
  rw [List.pairwise_append] at hs ⊢
  obtain ⟨hA1, hA2, h12⟩ := hs
  refine ⟨hA1, List.pairwise_cons.2 ⟨?_, hA2⟩, ?_⟩
  · intro x hx
    have := h2 x hx
    simp only [operator_lt, decide_eq_true_eq] at this
    rw [operator_lt_eq_false_iff]
    exact le_of_lt this
  · intro a ha b hb
    rcases List.mem_cons.1 hb with hb | hb
    · rw [hb]; exact h1 a ha
    · exact h12 a ha b hb

theorem inserted_perm (val : ligand) (A r : List ligand) (h : inserted val A r) :
    r.Perm (A ++ [val]) := by
  obtain ⟨A1, A2, e1, e2, -, -⟩ := h
  subst e1 e2
  simp only [List.append_assoc]
  exact List.Perm.append_left A1 (List.perm_append_singleton val A2).symm

/-- The insertion keeps ties in the order of the range: the element inserted
stands behind the elements of its free energy. -/
theorem inserted_filter (val : ligand) (A r : List ligand) (h : inserted val A r) (e : fl) :
    r.filter (fun l => decide (l.free_energy = e))
      = (A ++ [val]).filter (fun l => decide (l.free_energy = e)) := by
  obtain ⟨A1, A2, e1, e2, -, h2⟩ := h
  subst e1 e2
  simp only [List.append_assoc, List.filter_append, List.filter_cons, List.filter_nil]
  by_cases hv : val.free_energy = e
  · have hnil : A2.filter (fun l => decide (l.free_energy = e)) = [] := by
      rw [List.filter_eq_nil_iff]
      intro x hx
      have := h2 x hx
      simp only [operator_lt, decide_eq_true_eq] at this
      simp only [decide_eq_true_eq]
      intro hxe
      rw [hxe, ← hv] at this
      exact lt_irrefl _ this
    simp [hv, hnil]
  · simp [hv]

/-- What a run of insertions over `n` further positions leaves: the range `r`
followed by the rest, `r` in ascending order, made of the elements it had
and the next `n`, ties in the order they had. -/
theorem insertion_sort_loop_spec :
    ∀ (n : Nat) (A rest : List ligand), n ≤ rest.length →
      A.Pairwise (fun a b => operator_lt b a = false) →
      ∃ r, insertion_sort_loop n A.length (A ++ rest) = r ++ rest.drop n
        ∧ r.Pairwise (fun a b => operator_lt b a = false)
        ∧ r.Perm (A ++ rest.take n)
        ∧ ∀ e : fl, r.filter (fun l => decide (l.free_energy = e))
            = (A ++ rest.take n).filter (fun l => decide (l.free_energy = e)) := by
  intro n
  induction n with
  | zero =>
    intro A rest _ hs
    exact ⟨A, by simp [insertion_sort_loop], hs, by simp, by simp⟩
  | succ n ih =>
    intro A rest hn hs
    cases rest with
    | nil => simp at hn
    | cons v B =>
      obtain ⟨r1, hins, hr1⟩ := insertion_sort_body_spec A hs v B
      have hlen : A.length + 1 = r1.length := by
        rw [(inserted_perm v A r1 hins).length_eq]; simp
      rw [insertion_sort_loop, hr1, hlen]
      obtain ⟨r, e, hsr, hp, hf⟩ := ih r1 B (by simpa using hn) (inserted_sorted v A r1 hs hins)
      refine ⟨r, by simpa using e, hsr, ?_, ?_⟩
      · refine hp.trans ?_
        have := (inserted_perm v A r1 hins).append_right (B.take n)
        simpa using this
      · intro e
        rw [hf e, List.filter_append, inserted_filter v A r1 hins e, ← List.filter_append]
        simp

theorem unguarded_insertion_sort_spec :
    ∀ (n : Nat) (A rest : List ligand), n ≤ rest.length →
      A.Pairwise (fun a b => operator_lt b a = false) →
      ∃ r, unguarded_insertion_sort n A.length (A ++ rest) = r ++ rest.drop n
        ∧ r.Pairwise (fun a b => operator_lt b a = false)
        ∧ r.Perm (A ++ rest.take n)
        ∧ ∀ e : fl, r.filter (fun l => decide (l.free_energy = e))
            = (A ++ rest.take n).filter (fun l => decide (l.free_energy = e)) := by
  intro n
  induction n with
  | zero =>
    intro A rest _ hs
    exact ⟨A, by simp [unguarded_insertion_sort], hs, by simp, by simp⟩
  | succ n ih =>
    intro A rest hn hs
    cases rest with
    | nil => simp at hn
    | cons v B =>
      obtain ⟨r1, hins, hr1⟩ := unguarded_linear_insert_spec v A hs v B
      have hlen : A.length + 1 = r1.length := by
        rw [(inserted_perm v A r1 hins).length_eq]; simp
      rw [unguarded_insertion_sort, getD_append_length, hr1, hlen]
      obtain ⟨r, e, hsr, hp, hf⟩ := ih r1 B (by simpa using hn) (inserted_sorted v A r1 hs hins)
      refine ⟨r, by simpa using e, hsr, ?_, ?_⟩
      · refine hp.trans ?_
        have := (inserted_perm v A r1 hins).append_right (B.take n)
        simpa using this
      · intro e
        rw [hf e, List.filter_append, inserted_filter v A r1 hins e, ← List.filter_append]
        simp

theorem insertion_sort_spec (l : List ligand) (last : Nat) (h : last ≤ l.length) :
    ∃ r, insertion_sort l last = r ++ l.drop last
      ∧ r.Pairwise (fun a b => operator_lt b a = false)
      ∧ r.Perm (l.take last)
      ∧ ∀ e : fl, r.filter (fun l => decide (l.free_energy = e))
          = (l.take last).filter (fun l => decide (l.free_energy = e)) := by
  unfold insertion_sort
  split
  · rename_i h0
    subst h0
    exact ⟨[], by simp, List.Pairwise.nil, by simp, by simp⟩
  · rename_i h0
    cases l with
    | nil => simp at h; exact absurd h h0
    | cons a rest =>
      obtain ⟨r, e, hs, hp, hf⟩ := insertion_sort_loop_spec (last - 1) [a] rest
        (by simp at h; omega) (List.pairwise_singleton _ a)
      have hl : last = (last - 1) + 1 := by omega
      refine ⟨r, ?_, hs, ?_, ?_⟩
      · rw [hl, List.drop_succ_cons]
        simpa using e
      · rw [hl, List.take_succ_cons]
        simpa using hp
      · intro e
        rw [hl, List.take_succ_cons]
        simpa using hf e

/-- The final insertion sort leaves every range in ascending order, a
permutation of what it was. -/
theorem final_insertion_sort_spec (l : List ligand) :
    (final_insertion_sort l).Pairwise (fun a b => operator_lt b a = false)
      ∧ (final_insertion_sort l).Perm l := by
  unfold final_insertion_sort
  split
  · rename_i h
    obtain ⟨r1, e1, hs1, hp1, -⟩ := insertion_sort_spec l 16 (by omega)
    have hlen : r1.length = 16 := by
      rw [hp1.length_eq, List.length_take]; omega
    obtain ⟨r, e, hs, hp, -⟩ := unguarded_insertion_sort_spec (l.length - 16) r1 (l.drop 16)
      (by simp) hs1
    rw [hlen] at e
    have hdrop : (l.drop 16).drop (l.length - 16) = [] := by
      apply List.drop_eq_nil_of_le
      simp
    have htake : (l.drop 16).take (l.length - 16) = l.drop 16 := by
      apply List.take_of_length_le
      simp
    rw [hdrop, List.append_nil] at e
    rw [htake] at hp
    rw [e1, e]
    refine ⟨hs, hp.trans ?_⟩
    have := hp1.append_right (l.drop 16)
    rwa [List.take_append_drop] at this
  · obtain ⟨r, e, hs, hp, -⟩ := insertion_sort_spec l l.length (le_refl _)
    rw [e]
    simp only [List.drop_length, List.append_nil, List.take_length] at hp ⊢
    exact ⟨hs, hp⟩

theorem introsort_loop_small (depth_limit : Nat) (l : List ligand) (h : l.length ≤ 16) :
    introsort_loop depth_limit l = l := by
  cases depth_limit with
  | zero => rw [introsort_loop, if_neg (by omega)]
  | succ d => rw [introsort_loop, if_neg (by omega)]

/-- The library sort leaves every range in ascending order, a permutation of
what it was. -/
theorem sort_spec (l : List ligand) :
    (sort l).Perm l ∧ (sort l).Pairwise (fun a b => operator_lt b a = false) := by
  unfold sort
  split
  · rename_i h
    rw [List.length_eq_zero.1 h]
    exact ⟨List.Perm.refl _, List.Pairwise.nil⟩
  · obtain ⟨hs, hp⟩ := final_insertion_sort_spec (introsort_loop (lg l.length * 2) l)
    exact ⟨hp.trans (introsort_loop_perm _ l), hs⟩

/-- On a range of at most 16 elements the library sort is the insertion sort
alone, which keeps ties in the order of the range. -/
theorem sort_small_filter (l : List ligand) (h : l.length ≤ 16) (e : fl) :
    (sort l).filter (fun x => decide (x.free_energy = e))
      = l.filter (fun x => decide (x.free_energy = e)) := by
  unfold sort
  split
  · rfl
  · rw [introsort_loop_small _ l h]
    unfold final_insertion_sort
    rw [if_neg (by omega)]
    obtain ⟨r, e1, -, -, hf⟩ := insertion_sort_spec l l.length (le_refl _)
    rw [e1]
    simpa using hf e

end std

theorem ptr_vector_sort_std_sort : std_sort ptr_vector_sort :=
  fun l => std.sort_spec l

theorem ptr_vector_sort_small (l : List ligand) (h : l.length ≤ 16) :
    ties_in_slot_order l (ptr_vector_sort l) :=
  fun e => std.sort_small_filter l h e

/-! ## Lemmas on names and sizes -/

theorem digit_value_digitChar (k : Nat) (h : k < 10) : digit_value (Nat.digitChar k) = k := by
  interval_cases k <;> rfl

theorem foldl_toDigitsCore (fuel : Nat) : ∀ (n : Nat) (ds : List Char), n < fuel →
    (Nat.toDigitsCore 10 fuel n ds).foldl (fun a c => 10 * a + digit_value c) 0
      = ds.foldl (fun a c => 10 * a + digit_value c) n := by
  induction fuel with
  | zero => intro n ds h; omega
  | succ k ih =>
    intro n ds h
    simp only [Nat.toDigitsCore]
    split
    · simp only [List.foldl_cons, Nat.mul_zero, Nat.zero_add]
      rw [digit_value_digitChar _ (Nat.mod_lt _ (by decide))]
      have hn : n % 10 = n := by omega
      rw [hn]
    · rw [ih (n / 10) _ (by omega)]
      simp only [List.foldl_cons]
      rw [digit_value_digitChar _ (Nat.mod_lt _ (by decide))]
      have hn : 10 * (n / 10) + n % 10 = n := by omega
      rw [hn]

/-- Different numbers have different decimal texts. -/
theorem lexical_cast_string_injective : Function.Injective lexical_cast_string := by
  intro a b h
  have h1 : Nat.toDigits 10 a = Nat.toDigits 10 b := by
    have hd := congrArg String.data h
    simpa [lexical_cast_string, toString, Nat.repr, List.asString] using hd
  have ha := foldl_toDigitsCore (a + 1) a [] (by omega)
  have hb := foldl_toDigitsCore (b + 1) b [] (by omega)
  simp only [List.foldl_nil] at ha hb
  unfold Nat.toDigits at h1
  rw [h1] at ha
  omega

theorem string_append_right_cancel (a b c : String) (h : a ++ c = b ++ c) : a = b := by
  have hd := congrArg String.data h
  simp only [String.data_append] at hd
  exact String.ext (List.append_cancel_right hd)

theorem string_append_left_cancel (a b c : String) (h : a ++ b = a ++ c) : b = c := by
  have hd := congrArg String.data h
  simp only [String.data_append] at hd
  exact String.ext (List.append_cancel_left hd)

/-- Different file names give different paths in one folder. -/
theorem path_div_injective (folder : String) : Function.Injective (path_div folder) := by
  intro a b h
  exact string_append_left_cancel _ _ _ h

theorem num_children_eq (o : Options) (h : population_fits o) :
    num_children o = o.num_mutants + o.num_crossovers := by
  unfold population_fits at h
  unfold num_children
  exact Nat.mod_eq_of_lt (by omega)

theorem num_ligands_eq (o : Options) (h : population_fits o) :
    num_ligands o = o.num_elitists + o.num_mutants + o.num_crossovers := by
  unfold num_ligands
  rw [num_children_eq o h]
  unfold population_fits at h
  rw [Nat.mod_eq_of_lt (by omega)]
  omega

/-- Entry `i` of `ligand_filenames` is the decimal text of `i + 1` followed
by ".pdbqt". -/
theorem ligand_filenames_getD (o : Options) (i : Nat) (hi : i < num_ligands o) :
    (ligand_filenames o).getD i "" = lexical_cast_string (i + 1) ++ ".pdbqt" := by
  have hlen : i < (ligand_filenames o).length := by simp [ligand_filenames, hi]
  rw [List.getD_eq_getElem _ _ hlen]
  simp [ligand_filenames, Nat.add_comm]

theorem create_tasks_length (w : World) (o : Options) (folder : String) (eng_calls : Nat)
    (h : population_fits o) :
    (create_tasks w o folder eng_calls).length = o.num_mutants + o.num_crossovers := by
  simp [create_tasks, num_children_eq o h]

theorem create_tasks_getElem (w : World) (o : Options) (folder : String) (eng_calls : Nat)
    (h : population_fits o) (i : Nat) (hi : i < (create_tasks w o folder eng_calls).length) :
    (create_tasks w o folder eng_calls)[i]
      = { kind := if i < o.num_mutants then task_kind.mutation_task
                  else task_kind.crossover_task,
          index := o.num_elitists + i,
          p := path_div folder (lexical_cast_string (i + 1) ++ ".pdbqt"),
          seed := w.mt19937 o.seed (eng_calls + i) } := by
  have hlen := create_tasks_length w o folder eng_calls h
  have hi2 : i < o.num_mutants + o.num_crossovers := by omega
  have hfit : o.num_elitists + o.num_mutants + o.num_crossovers < SIZE := h
  have hmod : (o.num_elitists + i) % SIZE = o.num_elitists + i := Nat.mod_eq_of_lt (by omega)
  have hname := ligand_filenames_getD o i (by rw [num_ligands_eq o h]; omega)
  rw [List.getD_eq_getElem?_getD] at hname
  unfold create_tasks
  by_cases hm : i < o.num_mutants
  · rw [List.getElem_append_left (by simpa using hm)]
    simp [hm, hmod, hname]
  · rw [List.getElem_append_right (by simpa using hm)]
    have hsub : o.num_mutants + (i - o.num_mutants) = i := by omega
    simp [hm, hsub, hmod, hname]

/-! ## C1, C2: the Rank step -/

/-- C1. For every population, the population after `ligands.sort()`, the
library sort run with `operator<`, is a permutation of the population before
it, has the same size, which is `num_elitists + num_mutants + num_crossovers`
when the population before it has this size, and is ascending in free
energy: for slots `i < j` the free energy at `i` is at most the free energy
at `j`. -/
theorem rank_sorted_permutation (o : Options) (ligands : List ligand) :
    (rank ptr_vector_sort ligands).Perm ligands
    ∧ (rank ptr_vector_sort ligands).length = ligands.length
    ∧ (ligands.length = o.num_elitists + o.num_mutants + o.num_crossovers →
        (rank ptr_vector_sort ligands).length
          = o.num_elitists + o.num_mutants + o.num_crossovers)
    ∧ ∀ (i j : Nat) (hi : i < (rank ptr_vector_sort ligands).length)
        (hj : j < (rank ptr_vector_sort ligands).length),
        i < j → (rank ptr_vector_sort ligands)[i].free_energy
          ≤ (rank ptr_vector_sort ligands)[j].free_energy := by
  obtain ⟨hp, hs⟩ := std.sort_spec ligands
  refine ⟨hp, hp.length_eq, fun hsize => by rw [← hsize]; exact hp.length_eq, ?_⟩
  intro i j hi hj hij
  have h := (List.pairwise_iff_getElem.1 hs) i j hi hj hij
  exact (operator_lt_eq_false_iff _ _).1 h

/-- C1, at the population of seventeen slots (one elitist, eight mutants,
eight crossovers), which the library sort partitions before it inserts. -/
theorem rank_sorted_permutation_witness :
    tied_seventeen.length
        = seventeen_options.num_elitists + seventeen_options.num_mutants
          + seventeen_options.num_crossovers
    ∧ (rank ptr_vector_sort tied_seventeen).Perm tied_seventeen
    ∧ (rank ptr_vector_sort tied_seventeen).length = tied_seventeen.length
    ∧ (rank ptr_vector_sort tied_seventeen).length
        = seventeen_options.num_elitists + seventeen_options.num_mutants
          + seventeen_options.num_crossovers
    ∧ ∀ (i j : Nat) (hi : i < (rank ptr_vector_sort tied_seventeen).length)
        (hj : j < (rank ptr_vector_sort tied_seventeen).length),
        i < j → (rank ptr_vector_sort tied_seventeen)[i].free_energy
          ≤ (rank ptr_vector_sort tied_seventeen)[j].free_energy :=
  ⟨rfl, (rank_sorted_permutation seventeen_options tied_seventeen).1,
    (rank_sorted_permutation seventeen_options tied_seventeen).2.1,
    (rank_sorted_permutation seventeen_options tied_seventeen).2.2.1 rfl,
    (rank_sorted_permutation seventeen_options tied_seventeen).2.2.2⟩

theorem seventeen_options_accepted : process_options seventeen_options = none := by
  norm_num [process_options, seventeen_options, default_options]

set_option maxRecDepth 100000 in
/-- The population of seventeen slots after the library sort. -/
theorem rank_tied_seventeen :
    rank ptr_vector_sort tied_seventeen
      = [ligand.of "output/1/ligand/16.pdbqt" (-16), ligand.of "output/1/ligand/15.pdbqt" (-15),
         ligand.of "output/1/ligand/14.pdbqt" (-14), ligand.of "output/1/ligand/13.pdbqt" (-13),
         ligand.of "output/1/ligand/12.pdbqt" (-12), ligand.of "output/1/ligand/11.pdbqt" (-11),
         ligand.of "output/1/ligand/10.pdbqt" (-10), ligand.of "output/1/ligand/8.pdbqt" (-9),
         ligand.of "initial/ZINC01.pdbqt" (-9), ligand.of "output/1/ligand/1.pdbqt" (-8),
         ligand.of "output/1/ligand/2.pdbqt" (-7), ligand.of "output/1/ligand/3.pdbqt" (-6),
         ligand.of "output/1/ligand/4.pdbqt" (-5), ligand.of "output/1/ligand/5.pdbqt" (-4),
         ligand.of "output/1/ligand/6.pdbqt" (-3), ligand.of "output/1/ligand/7.pdbqt" (-2),
         ligand.of "output/1/ligand/9.pdbqt" (-1)] := by
  decide

set_option maxRecDepth 100000 in
/-- The run with seventeen slots in `tie_world`: it enters the loop, and in
generation 1 the population that reaches the sort is `tied_seventeen`. -/
theorem tie_run_reaches_sort :
    enter_loop tie_world seventeen_options = some ("/usr/bin/idock", tie_start)
    ∧ (reread tie_world seventeen_options (output_folder seventeen_options 1)
        (List.range (num_children seventeen_options))
        (after_tasks tie_world seventeen_options 1 tie_start).ligands).2.1 = tied_seventeen := by
  constructor
  · unfold enter_loop
    rw [seventeen_options_accepted]
    rfl
  · decide

set_option maxRecDepth 100000 in
/-- The population of the run with seventeen slots in `tie_world` after one
pass of the loop. -/
theorem tie_run_ranked :
    (main tie_world seventeen_options 1).1.ligands = rank ptr_vector_sort tied_seventeen := by
  rw [rank_tied_seventeen]
  unfold main
  rw [seventeen_options_accepted]
  decide

set_option maxRecDepth 100000 in
/-- C2, refuted. The library sort exchanges two ligands of equal free energy.
Take the run `--elitists 1 --mutants 8 --crossovers 8` on a seed row of free
energy -9.000 in which the scorer gives the sixteen offspring of generation 1
the free energies -8, -7, -6, -5, -4, -3, -2, -9, -1, -10, -11, -12, -13,
-14, -15, -16. The run enters the loop, and when generation 1 reaches the
sort the elitist in slot 1 and the offspring of `8.pdbqt` in slot 9 tie at
-9. `__move_median_to_first` swaps the middle slot 9 with slot 1 to make it
the pivot, and in the population after the pass the ligand of slot 9 stands
in front of the ligand of slot 1. -/
theorem rank_exchanges_ties :
    enter_loop tie_world seventeen_options = some ("/usr/bin/idock", tie_start)
    ∧ (reread tie_world seventeen_options (output_folder seventeen_options 1)
        (List.range (num_children seventeen_options))
        (after_tasks tie_world seventeen_options 1 tie_start).ligands).2.1 = tied_seventeen
    ∧ (main tie_world seventeen_options 1).1.ligands = rank ptr_vector_sort tied_seventeen
    ∧ (tied_seventeen.filter (fun l => decide (l.free_energy = -9))).map (fun l => l.p)
      = ["initial/ZINC01.pdbqt", "output/1/ligand/8.pdbqt"]
    ∧ ((rank ptr_vector_sort tied_seventeen).filter
        (fun l => decide (l.free_energy = -9))).map (fun l => l.p)
      = ["output/1/ligand/8.pdbqt", "initial/ZINC01.pdbqt"]
    ∧ ¬ ties_in_slot_order tied_seventeen (rank ptr_vector_sort tied_seventeen) := by
  refine ⟨tie_run_reaches_sort.1, tie_run_reaches_sort.2, tie_run_ranked, by decide, ?_, ?_⟩
  · rw [rank_tied_seventeen]; decide
  · intro h
    have h9 := h (-9)
    rw [rank_tied_seventeen] at h9
    revert h9
    decide

/-- C2, amended. For every population: when it has at most 16 ligands, the
library sort is its insertion sort alone and the ligands of every free
energy stand after ranking in the order in which they stood before; and for
a population of any size and every free energy `e`, the ranked population is
the ligands below `e`, then the ligands of free energy `e`, then the ligands
above `e`, and the ligands of free energy `e` are a permutation of those of
the population before ranking. -/
theorem rank_ties_form_block (ligands : List ligand) :
    (ligands.length ≤ 16 → ties_in_slot_order ligands (rank ptr_vector_sort ligands))
    ∧ ∀ e : fl,
        rank ptr_vector_sort ligands
          = (rank ptr_vector_sort ligands).filter (fun l => decide (l.free_energy < e))
            ++ (rank ptr_vector_sort ligands).filter (fun l => decide (l.free_energy = e))
            ++ (rank ptr_vector_sort ligands).filter (fun l => decide (e < l.free_energy))
        ∧ ((rank ptr_vector_sort ligands).filter (fun l => decide (l.free_energy = e))).Perm
            (ligands.filter (fun l => decide (l.free_energy = e))) := by
  refine ⟨fun h16 e => std.sort_small_filter ligands h16 e, fun e => ?_⟩
  obtain ⟨hp, hs⟩ := std.sort_spec ligands
  refine ⟨?_, hp.filter _⟩
  apply sorted_blocks e
  exact List.Pairwise.imp (fun {a b} hab => (operator_lt_eq_false_iff a b).1 hab) hs

/-- C2 amended, at the population of three slots with a tie at -7. -/
theorem rank_ties_form_block_witness :
    tied_population.length ≤ 16
    ∧ ties_in_slot_order tied_population (rank ptr_vector_sort tied_population)
    ∧ ∀ e : fl,
        rank ptr_vector_sort tied_population
          = (rank ptr_vector_sort tied_population).filter (fun l => decide (l.free_energy < e))
            ++ (rank ptr_vector_sort tied_population).filter
                (fun l => decide (l.free_energy = e))
            ++ (rank ptr_vector_sort tied_population).filter
                (fun l => decide (e < l.free_energy))
        ∧ ((rank ptr_vector_sort tied_population).filter
              (fun l => decide (l.free_energy = e))).Perm
            (tied_population.filter (fun l => decide (l.free_energy = e))) :=
  ⟨by decide, (rank_ties_form_block tied_population).1 (by decide),
    (rank_ties_form_block tied_population).2⟩

/-! ## C3: the Spawn step -/

/-- C3, refuted. With `--elitists 1 --mutants 2 --crossovers
18446744073709551615` the options pass every check and the sums of lines
247-248 wrap: `num_children` is 1 and `num_ligands` is 2. Lines 363-370 push
two mutation tasks, bound to the slots 1 and 2, and no crossover task: the
tasks are not `num_mutants + num_crossovers` many, none of them is a
crossover task, and the slot of the second task is not below `num_ligands`. -/
theorem create_tasks_sizes_wrap :
    process_options wrapped_options = none
    ∧ num_children wrapped_options = 1
    ∧ num_ligands wrapped_options = 2
    ∧ (create_tasks (sample_world false 0) wrapped_options (ligand_folder wrapped_options 1) 0).map
        (fun t => (t.kind, t.index))
      = [(task_kind.mutation_task, 1), (task_kind.mutation_task, 2)]
    ∧ (create_tasks (sample_world false 0) wrapped_options
        (ligand_folder wrapped_options 1) 0).length
      ≠ wrapped_options.num_mutants + wrapped_options.num_crossovers
    ∧ (create_tasks (sample_world false 0) wrapped_options (ligand_folder wrapped_options 1) 0).map
        (fun t => decide (t.index < num_ligands wrapped_options))
      = [true, false] := by
  refine ⟨?_, by decide, by decide, by decide, by decide, by decide⟩
  norm_num [process_options, wrapped_options, default_options]

/-- C3, amended. When the sum `num_elitists + num_mutants + num_crossovers`
is a `size_t` (below `2^64`), lines 363-370 push exactly
`num_mutants + num_crossovers` tasks, the first `num_mutants` of them
mutation tasks and the others crossover tasks; the task of index `i` is bound
to slot `num_elitists + i` and to the file `<i+1>.pdbqt` in the ligand folder
of the generation; its slot lies in `[num_elitists, num_ligands)`; and two
tasks of different index differ in slot, in file name and in path. -/
theorem create_tasks_slots (w : World) (o : Options) (g : Nat) (s : State)
    (h : population_fits o) :
    (create_tasks w o (ligand_folder o g) s.eng_calls).length
        = o.num_mutants + o.num_crossovers
    ∧ (∀ (i : Nat) (hi : i < (create_tasks w o (ligand_folder o g) s.eng_calls).length),
        (create_tasks w o (ligand_folder o g) s.eng_calls)[i].kind
            = (if i < o.num_mutants then task_kind.mutation_task
               else task_kind.crossover_task)
        ∧ (create_tasks w o (ligand_folder o g) s.eng_calls)[i].index = o.num_elitists + i
        ∧ (create_tasks w o (ligand_folder o g) s.eng_calls)[i].p
            = path_div (ligand_folder o g) (lexical_cast_string (i + 1) ++ ".pdbqt")
        ∧ o.num_elitists ≤ (create_tasks w o (ligand_folder o g) s.eng_calls)[i].index
        ∧ (create_tasks w o (ligand_folder o g) s.eng_calls)[i].index < num_ligands o)
    ∧ (∀ (i j : Nat) (hi : i < (create_tasks w o (ligand_folder o g) s.eng_calls).length)
        (hj : j < (create_tasks w o (ligand_folder o g) s.eng_calls).length), i ≠ j →
        (create_tasks w o (ligand_folder o g) s.eng_calls)[i].index
            ≠ (create_tasks w o (ligand_folder o g) s.eng_calls)[j].index
        ∧ lexical_cast_string (i + 1) ++ ".pdbqt" ≠ lexical_cast_string (j + 1) ++ ".pdbqt"
        ∧ (create_tasks w o (ligand_folder o g) s.eng_calls)[i].p
            ≠ (create_tasks w o (ligand_folder o g) s.eng_calls)[j].p) := by
  have hlen := create_tasks_length w o (ligand_folder o g) s.eng_calls h
  have hname : ∀ i j : Nat, i ≠ j →
      lexical_cast_string (i + 1) ++ ".pdbqt" ≠ lexical_cast_string (j + 1) ++ ".pdbqt" := by
    intro i j hij heq
    have h1 := lexical_cast_string_injective (string_append_right_cancel _ _ _ heq)
    omega
  refine ⟨hlen, ?_, ?_⟩
  · intro i hi
    rw [create_tasks_getElem w o (ligand_folder o g) s.eng_calls h i hi, num_ligands_eq o h]
    refine ⟨rfl, rfl, rfl, Nat.le_add_right _ _, ?_⟩
    show o.num_elitists + i < o.num_elitists + o.num_mutants + o.num_crossovers
    omega
  · intro i j hi hj hij
    rw [create_tasks_getElem w o (ligand_folder o g) s.eng_calls h i hi,
      create_tasks_getElem w o (ligand_folder o g) s.eng_calls h j hj]
    refine ⟨?_, hname i j hij, ?_⟩
    · show o.num_elitists + i ≠ o.num_elitists + j
      omega
    · intro heq
      exact hname i j hij (path_div_injective _ heq)

/-- C3 amended, at the default sizes (10 elitists, 20 mutants, 20 crossovers): 40
tasks, the first 20 of them mutation tasks. -/
theorem create_tasks_slots_witness :
    population_fits default_options
    ∧ (create_tasks (sample_world false 0) default_options (ligand_folder default_options 1)
        small_state.eng_calls).length = 20 + 20 :=
  ⟨by simp [population_fits, default_options, SIZE],
    (create_tasks_slots (sample_world false 0) default_options 1 small_state
      (by simp [population_fits, default_options, SIZE])).1⟩

/-! ## Lemmas on one generation -/

theorem reread_no_idock (w : World) (o : Options) (folder : String) :
    ∀ (is : List Nat) (ligands : List ligand),
      (reread w o folder is ligands).1.filter Event.is_idock = [] := by
  intro is
  induction is with
  | nil => intro ligands; simp [reread]
  | cons i rest ih =>
    intro ligands
    unfold reread
    split
    · simp [Event.is_idock]
    · simp [Event.is_idock, ih]

theorem generation_eq (w : World) (o : Options) (idock_path : String) (g : Nat) (s : State) :
    generation w o idock_path g s
      = if directories_created w o g = false then (s, some 1)
        else if (tp_run w s.ligands s.num_failures
            (create_tasks w o (ligand_folder o g) s.eng_calls)).thrown = true then
          (after_tasks w o g s, some 1)
        else if w.idock idock_path (idock_args o g) ≠ 0 then (after_idock w o g s, some 1)
        else rank_report w o g (after_idock w o g s) := by
  unfold generation
  cases h : directories_created w o g <;> simp

theorem rank_report_code (w : World) (o : Options) (g : Nat) (s : State) :
    (rank_report w o g s).2
      = if (reread w o (output_folder o g) (List.range (num_children o)) s.ligands).2.2 = true
        then none else some 1 := by
  unfold rank_report
  split <;> rename_i h <;> simp [h]

/-- What a generation that reaches the end of the loop body has done. -/
theorem generation_full (w : World) (o : Options) (idock_path : String) (g : Nat) (s : State)
    (h : (generation w o idock_path g s).2 = none) :
    directories_created w o g = true
    ∧ (tp_run w s.ligands s.num_failures
        (create_tasks w o (ligand_folder o g) s.eng_calls)).thrown = false
    ∧ w.idock idock_path (idock_args o g) = 0
    ∧ (reread w o (output_folder o g) (List.range (num_children o))
        (after_tasks w o g s).ligands).2.2 = true
    ∧ generation w o idock_path g s
      = ({ ligands := rank w.sort (reread w o (output_folder o g)
              (List.range (num_children o)) (after_tasks w o g s).ligands).2.1,
           num_failures := (after_tasks w o g s).num_failures,
           eng_calls := (after_tasks w o g s).eng_calls,
           csv := s.csv ++ report w o g (rank w.sort (reread w o (output_folder o g)
              (List.range (num_children o)) (after_tasks w o g s).ligands).2.1),
           trace := s.trace
              ++ (create_tasks w o (ligand_folder o g) s.eng_calls).map Event.push_back
              ++ [Event.run] ++ [Event.idock (idock_args o g)]
              ++ (reread w o (output_folder o g) (List.range (num_children o))
                    (after_tasks w o g s).ligands).1
              ++ [Event.sort] }, none) := by
  rw [generation_eq] at h ⊢
  by_cases h1 : directories_created w o g = false
  · simp [h1] at h
  by_cases h2 : (tp_run w s.ligands s.num_failures
      (create_tasks w o (ligand_folder o g) s.eng_calls)).thrown = true
  · simp [h1, h2] at h
  by_cases h3 : w.idock idock_path (idock_args o g) ≠ 0
  · simp [h1, h2, h3] at h
  rw [if_neg h1, if_neg h2, if_neg h3] at h ⊢
  rw [rank_report_code] at h
  by_cases h4 : (reread w o (output_folder o g) (List.range (num_children o))
      (after_idock w o g s).ligands).2.2 = true
  · refine ⟨by simpa using h1, by simpa using h2, by simpa using h3, h4, ?_⟩
    unfold rank_report
    have h5 : (after_idock w o g s).ligands = (after_tasks w o g s).ligands := rfl
    rw [h5] at h4 ⊢
    split
    · rename_i hr
      rw [hr] at h4
      simp at h4
    · rename_i hr
      rw [hr]
      simp [after_idock, after_tasks]
  · rw [if_neg h4] at h
    simp at h



theorem tp_run_foldl_thrown (w : World) (parents : List ligand) :
    ∀ (tasks : List operation_task) (ps : pool_state),
      (∀ t n, (w.run_task t parents n).1 ≠ none) →
      (tasks.foldl (run_one w parents) ps).thrown = ps.thrown := by
  intro tasks
  induction tasks with
  | nil => intro ps _; rfl
  | cons t rest ih =>
    intro ps hok
    rw [List.foldl_cons, ih _ hok]
    unfold run_one
    split
    · rfl
    · rename_i n hr
      exact absurd (congrArg Prod.fst hr) (hok t ps.num_failures)

/-- When no task throws, no future holds an exception. -/
theorem tp_run_not_thrown (w : World) (parents : List ligand) (n0 : Nat)
    (tasks : List operation_task) (hok : ∀ t n, (w.run_task t parents n).1 ≠ none) :
    (tp_run w parents n0 tasks).thrown = false := by
  unfold tp_run
  rw [tp_run_foldl_thrown w parents tasks _ hok]

/-- When no `update` throws, the re-read goes through all its indices. -/
theorem reread_completes (w : World) (o : Options) (folder : String)
    (hok : ∀ file l, w.update file l ≠ none) :
    ∀ (is : List Nat) (ligands : List ligand), (reread w o folder is ligands).2.2 = true := by
  intro is
  induction is with
  | nil => intro ligands; rfl
  | cons i rest ih =>
    intro ligands
    unfold reread
    split
    · rename_i hr
      exact absurd hr (hok _ _)
    · exact ih _

/-- A generation in which the directories are created, no task throws, the
scorer exits with status 0 and no `update` throws reaches the end of the
loop body. -/
theorem generation_runs_full (w : World) (o : Options) (idock_path : String) (g : Nat)
    (s : State) (hdirs : directories_created w o g = true)
    (htasks : ∀ t n, (w.run_task t s.ligands n).1 ≠ none)
    (hidock : w.idock idock_path (idock_args o g) = 0)
    (hupdate : ∀ file l, w.update file l ≠ none) :
    (generation w o idock_path g s).2 = none := by
  rw [generation_eq, if_neg (by simp [hdirs]),
    if_neg (by simp [tp_run_not_thrown w s.ligands s.num_failures _ htasks]),
    if_neg (by simp [hidock]), rank_report_code,
    if_pos (reread_completes w o _ hupdate _ _)]

theorem sample_world_runs_full (o : Options) (g : Nat) (s : State) :
    (generation (sample_world false 0) o "idock" g s).2 = none := by
  apply generation_runs_full
  · rfl
  · intro t n; simp [sample_world]
  · rfl
  · intro file l; simp [sample_world]

theorem tp_run_foldl_thrown_true (w : World) (parents : List ligand) :
    ∀ (tasks : List operation_task) (ps : pool_state), ps.thrown = true →
      (tasks.foldl (run_one w parents) ps).thrown = true := by
  intro tasks
  induction tasks with
  | nil => intro ps h; exact h
  | cons t rest ih =>
    intro ps h
    rw [List.foldl_cons]
    apply ih
    unfold run_one
    split
    · exact h
    · rfl

theorem tp_run_foldl_thrown_of_mem (w : World) (parents : List ligand) (t : operation_task)
    (ht : ∀ n, (w.run_task t parents n).1 = none) :
    ∀ (tasks : List operation_task) (ps : pool_state), t ∈ tasks →
      (tasks.foldl (run_one w parents) ps).thrown = true := by
  intro tasks
  induction tasks with
  | nil => intro ps h; simp at h
  | cons a rest ih =>
    intro ps h
    rw [List.foldl_cons]
    rcases List.mem_cons.1 h with rfl | hmem
    · apply tp_run_foldl_thrown_true
      unfold run_one
      split
      · rename_i l n hr
        have := ht ps.num_failures
        rw [hr] at this
        simp at this
      · rfl
    · exact ih _ hmem

/-- When one of the tasks throws, whatever the failure counter, some future
holds an exception. -/
theorem tp_run_thrown_of_mem (w : World) (parents : List ligand) (n0 : Nat)
    (tasks : List operation_task) (t : operation_task) (hmem : t ∈ tasks)
    (ht : ∀ n, (w.run_task t parents n).1 = none) :
    (tp_run w parents n0 tasks).thrown = true :=
  tp_run_foldl_thrown_of_mem w parents t ht tasks _ hmem

/-- The loop body ends with `return 1` or reaches its end. -/
theorem generation_code (w : World) (o : Options) (idock_path : String) (g : Nat) (s : State) :
    (generation w o idock_path g s).2 = none ∨ (generation w o idock_path g s).2 = some 1 := by
  rw [generation_eq]
  split
  · exact Or.inr rfl
  · split
    · exact Or.inr rfl
    · split
      · exact Or.inr rfl
      · rw [rank_report_code]
        split
        · exact Or.inl rfl
        · exact Or.inr rfl

/-- The loop never ends with a code other than 1. -/
theorem loop_code (w : World) (o : Options) (idock_path : String) :
    ∀ (fuel g : Nat) (s : State),
      (loop w o idock_path fuel g s).2 = none ∨ (loop w o idock_path fuel g s).2 = some 1 := by
  intro fuel
  induction fuel with
  | zero => intro g s; exact Or.inl rfl
  | succ n ih =>
    intro g s
    unfold loop
    split
    · rename_i s1 c hgen
      have hc := generation_code w o idock_path g s
      rw [hgen] at hc
      simpa using hc
    · exact ih _ _

/-- A generation that returns ends the loop: no later pass is made. -/
theorem loop_stops (w : World) (o : Options) (idock_path : String) (fuel g : Nat)
    (s s1 : State) (c : Nat) (h : generation w o idock_path g s = (s1, some c)) :
    loop w o idock_path (fuel + 1) g s = (s1, some c) := by
  unfold loop
  rw [h]

/-! ## C4: one generation at the default sizes -/

/-- C4, refuted. With 10 elitists, 20 mutants and 20 crossovers the tasks of
one generation are bound to 40 files, not to 50. -/
theorem default_sizes_not_fifty_files :
    ((create_tasks (sample_world false 0) default_options
        (ligand_folder default_options 1) 0).map (fun t => t.p)).length = 40
    ∧ ((create_tasks (sample_world false 0) default_options
        (ligand_folder default_options 1) 0).map (fun t => t.p)).length ≠ 50 := by
  have h : population_fits default_options := by simp [population_fits, default_options, SIZE]
  rw [List.length_map, create_tasks_length _ _ _ _ h]
  simp [default_options]

/-- C4, amended. With 10 elitists, 20 mutants and 20 crossovers, a generation
that runs to the end of the loop body has bound its tasks to exactly 40
files, pairwise different, which are the files `1.pdbqt` to `40.pdbqt` of
the ligand folder of the generation, and has called the scorer exactly once,
with that ligand folder as its `--ligand_folder`. -/
theorem default_sizes_forty_files (w : World) (o : Options) (idock_path : String) (g : Nat)
    (s : State) (he : o.num_elitists = 10) (hm : o.num_mutants = 20)
    (hc : o.num_crossovers = 20) (hfull : (generation w o idock_path g s).2 = none) :
    ((create_tasks w o (ligand_folder o g) s.eng_calls).map (fun t => t.p)).length = 40
    ∧ ((create_tasks w o (ligand_folder o g) s.eng_calls).map (fun t => t.p)).Nodup
    ∧ (create_tasks w o (ligand_folder o g) s.eng_calls).map (fun t => t.p)
        = (List.range 40).map
            (fun i => path_div (ligand_folder o g) (lexical_cast_string (i + 1) ++ ".pdbqt"))
    ∧ ((generation w o idock_path g s).1.trace.drop s.trace.length).filter Event.is_idock
        = [Event.idock (idock_args o g)]
    ∧ (idock_args o g).take 2 = ["--ligand_folder", ligand_folder o g] := by
  have hfit : population_fits o := by
    unfold population_fits SIZE
    rw [he, hm, hc]
    decide
  have hlen := create_tasks_length w o (ligand_folder o g) s.eng_calls hfit
  rw [hm, hc] at hlen
  have hpaths : (create_tasks w o (ligand_folder o g) s.eng_calls).map (fun t => t.p)
      = (List.range 40).map
          (fun i => path_div (ligand_folder o g) (lexical_cast_string (i + 1) ++ ".pdbqt")) := by
    apply List.ext_getElem
    · simp [hlen]
    · intro i h1 h2
      have hi : i < (create_tasks w o (ligand_folder o g) s.eng_calls).length := by
        simpa using h1
      rw [List.getElem_map, create_tasks_getElem w o (ligand_folder o g) s.eng_calls hfit i hi]
      simp
  refine ⟨by rw [List.length_map, hlen], ?_, hpaths, ?_, rfl⟩
  · rw [hpaths]
    apply List.Nodup.map _ (List.nodup_range 40)
    intro i j hij
    have h1 := lexical_cast_string_injective
      (string_append_right_cancel _ _ _ (path_div_injective _ hij))
    omega
  · obtain ⟨-, -, -, -, hgen⟩ := generation_full w o idock_path g s hfull
    rw [hgen]
    simp only [List.append_assoc, List.drop_left]
    simp [List.filter_append, List.filter_map, reread_no_idock, Event.is_idock]

/-- C4 amended, at the first generation of a run with the default sizes. -/
theorem default_sizes_forty_files_witness :
    (generation (sample_world false 0) default_options "idock" 1 default_state).2 = none
    ∧ ((create_tasks (sample_world false 0) default_options (ligand_folder default_options 1)
        default_state.eng_calls).map (fun t => t.p)).length = 40
    ∧ (idock_args default_options 1).take 2 = ["--ligand_folder", "output/1/ligand"] :=
  ⟨sample_world_runs_full default_options 1 default_state,
    (default_sizes_forty_files (sample_world false 0) default_options "idock" 1 default_state
      rfl rfl rfl (sample_world_runs_full default_options 1 default_state)).1,
    by decide⟩

/-! ## C5: the seed rows -/

/-- The first `c` at or after `pos` in `pre ++ c :: post`, when `pre` has no
`c` from `pos` on, is at position `pre.length`. -/
theorem find_first_of_append (pre post : List Char) (c : Char) (pos : Nat)
    (hpos : pos ≤ pre.length) (hc : c ∉ pre.drop pos) :
    find_first_of (pre ++ c :: post) c pos = pre.length := by
  unfold find_first_of
  rw [List.drop_append_of_le_length hpos]
  have hmem : c ∈ pre.drop pos ++ c :: post := by simp
  rw [if_pos hmem, List.indexOf_append_of_not_mem hc]
  simp
  omega

theorem not_mem_drop {c : Char} {l : List Char} (n : Nat) (h : c ∉ l) : c ∉ l.drop n :=
  fun hm => h (List.mem_of_mem_drop hm)

theorem seed_row_commas (id conf fe1 rest : List Char)
    (hid : id ≠ []) (hidc : ',' ∉ id) (hconf : conf ≠ []) (hconfc : ',' ∉ conf)
    (hfe : 5 ≤ fe1.length) (hfec : ',' ∉ fe1)
    (hsize : (id ++ ',' :: (conf ++ ',' :: (fe1 ++ ',' :: rest))).length < SIZE) :
    comma1 (id ++ ',' :: (conf ++ ',' :: (fe1 ++ ',' :: rest))) = id.length
    ∧ comma2 (id ++ ',' :: (conf ++ ',' :: (fe1 ++ ',' :: rest))) = id.length + 1 + conf.length
    ∧ comma3 (id ++ ',' :: (conf ++ ',' :: (fe1 ++ ',' :: rest)))
        = id.length + 1 + conf.length + 1 + fe1.length := by
  have hidl : 1 ≤ id.length := List.length_pos.2 hid
  have hconfl : 1 ≤ conf.length := List.length_pos.2 hconf
  simp only [List.length_append, List.length_cons] at hsize
  have h1 : comma1 (id ++ ',' :: (conf ++ ',' :: (fe1 ++ ',' :: rest))) = id.length :=
    find_first_of_append id _ ',' 1 hidl (not_mem_drop 1 hidc)
  have h2 : comma2 (id ++ ',' :: (conf ++ ',' :: (fe1 ++ ',' :: rest)))
      = id.length + 1 + conf.length := by
    unfold comma2
    rw [h1, Nat.mod_eq_of_lt (by omega)]
    have hassoc : id ++ ',' :: (conf ++ ',' :: (fe1 ++ ',' :: rest))
        = (id ++ ',' :: conf) ++ ',' :: (fe1 ++ ',' :: rest) := by simp
    rw [hassoc]
    have := find_first_of_append (id ++ ',' :: conf) (fe1 ++ ',' :: rest) ',' (id.length + 2)
      (by simp; omega)
      (by
        have hd : (id ++ ',' :: conf).drop (id.length + 2) = conf.drop 1 := by
          rw [List.drop_append_eq_append_drop]
          simp
        rw [hd]
        exact not_mem_drop 1 hconfc)
    rw [this]
    simp
    omega
  refine ⟨h1, h2, ?_⟩
  unfold comma3
  rw [h2, Nat.mod_eq_of_lt (by omega)]
  have hassoc : id ++ ',' :: (conf ++ ',' :: (fe1 ++ ',' :: rest))
      = (id ++ ',' :: (conf ++ ',' :: fe1)) ++ ',' :: rest := by simp
  rw [hassoc]
  have := find_first_of_append (id ++ ',' :: (conf ++ ',' :: fe1)) rest ','
    (id.length + 1 + conf.length + 6)
    (by simp; omega)
    (by
      have hd : (id ++ ',' :: (conf ++ ',' :: fe1)).drop (id.length + 1 + conf.length + 6)
          = fe1.drop 5 := by
        rw [List.drop_append_eq_append_drop]
        have e1 : id.length + 1 + conf.length + 6 - id.length = (conf.length + 6) + 1 := by omega
        rw [List.drop_of_length_le (by omega), e1, List.nil_append, List.drop_succ_cons,
          List.drop_append_eq_append_drop, List.drop_of_length_le (by omega)]
        have e2 : conf.length + 6 - conf.length = 5 + 1 := by omega
        rw [e2, List.nil_append, List.drop_succ_cons]
      rw [hd]
      exact not_mem_drop 5 hfec)
  rw [this]
  simp
  omega

/-- C5, refuted. In a row of eleven non-empty fields whose first free energy
is the four characters `-7.5`, the search for the third comma starts past
it: the text converted to the free energy is `-7.5,-7.2`, the third field
with the fourth. -/
theorem seed_row_short_free_energy :
    seed_free_energy_text "ZINC01,1,-7.5,-7.2,-7.1,-7.0,-6.9,-6.8,-6.7,-6.6,-6.5".data
      = some "-7.5,-7.2".data
    ∧ seed_free_energy_text "ZINC01,1,-7.5,-7.2,-7.1,-7.0,-6.9,-6.8,-6.7,-6.6,-6.5".data
      ≠ some "-7.5".data := by
  constructor <;> decide

/-- C5, amended. For a row `id,conf,fe1,rest` in which `id` and `conf` are
non-empty, `fe1` has at least five characters and none of the three holds a
comma: the ligand id is `id`, the text before the first comma, the structure
file is `initial_generation_folder / (id + ".pdbqt")`, the text converted to
the free energy is `fe1`, the text strictly between the second and the third
comma, and the free energy is the conversion of `fe1`. Neither `conf` nor
`rest` enters any of the four. -/
theorem seed_row_fields (folder : String) (cast : List Char → Option fl)
    (id conf fe1 rest : List Char)
    (hid : id ≠ []) (hidc : ',' ∉ id) (hconf : conf ≠ []) (hconfc : ',' ∉ conf)
    (hfe : 5 ≤ fe1.length) (hfec : ',' ∉ fe1)
    (hsize : (id ++ ',' :: (conf ++ ',' :: (fe1 ++ ',' :: rest))).length < SIZE) :
    seed_id (id ++ ',' :: (conf ++ ',' :: (fe1 ++ ',' :: rest))) = some id
    ∧ seed_path folder (id ++ ',' :: (conf ++ ',' :: (fe1 ++ ',' :: rest)))
        = some (path_div folder (String.mk id ++ ".pdbqt"))
    ∧ seed_free_energy_text (id ++ ',' :: (conf ++ ',' :: (fe1 ++ ',' :: rest))) = some fe1
    ∧ seed_free_energy cast (id ++ ',' :: (conf ++ ',' :: (fe1 ++ ',' :: rest))) = cast fe1 := by
  obtain ⟨h1, h2, h3⟩ := seed_row_commas id conf fe1 rest hid hidc hconf hconfc hfe hfec hsize
  simp only [List.length_append, List.length_cons] at hsize
  have hidv : seed_id (id ++ ',' :: (conf ++ ',' :: (fe1 ++ ',' :: rest))) = some id := by
    unfold seed_id substr
    rw [h1]
    simp
  have htext : seed_free_energy_text (id ++ ',' :: (conf ++ ',' :: (fe1 ++ ',' :: rest)))
      = some fe1 := by
    unfold seed_free_energy_text right_cast_text substr
    rw [h2, h3, Nat.mod_eq_of_lt (by omega)]
    have e1 : id.length + 1 + conf.length + 2 - 1 = id.length + 1 + conf.length + 1 := by omega
    have e2 : id.length + 1 + conf.length + 1 + fe1.length
        - (id.length + 1 + conf.length + 1) = fe1.length := by omega
    have hdrop : (id ++ ',' :: (conf ++ ',' :: (fe1 ++ ',' :: rest))).drop
        (id.length + 1 + conf.length + 1) = fe1 ++ ',' :: rest := by
      have hassoc : id ++ ',' :: (conf ++ ',' :: (fe1 ++ ',' :: rest))
          = (id ++ ',' :: (conf ++ [','])) ++ (fe1 ++ ',' :: rest) := by simp
      rw [hassoc]
      exact List.drop_left' (by simp; omega)
    rw [e1, e2, hdrop, if_neg (by simp only [List.length_append, List.length_cons]; omega)]
    simp
  refine ⟨hidv, ?_, htext, ?_⟩
  · unfold seed_path
    rw [hidv]
    rfl
  · unfold seed_free_energy right_cast
    unfold seed_free_energy_text at htext
    rw [htext]
    rfl

/-- C5 amended, at a row whose first free energy has six characters. -/
theorem seed_row_fields_witness :
    ("ZINC01".data ≠ [] ∧ ',' ∉ "ZINC01".data ∧ "1".data ≠ [] ∧ ',' ∉ "1".data
      ∧ 5 ≤ "-7.512".data.length ∧ ',' ∉ "-7.512".data)
    ∧ seed_id ("ZINC01".data ++ ',' :: ("1".data ++ ',' :: ("-7.512".data ++ ',' ::
        "-7.2,-7.1,-7.0,-6.9,-6.8,-6.7,-6.6,-6.5".data))) = some "ZINC01".data
    ∧ seed_free_energy_text ("ZINC01".data ++ ',' :: ("1".data ++ ',' :: ("-7.512".data ++ ',' ::
        "-7.2,-7.1,-7.0,-6.9,-6.8,-6.7,-6.6,-6.5".data))) = some "-7.512".data :=
  ⟨by decide,
    (seed_row_fields "initial" (fun _ => none) "ZINC01".data "1".data "-7.512".data
      "-7.2,-7.1,-7.0,-6.9,-6.8,-6.7,-6.6,-6.5".data (by decide) (by decide) (by decide)
      (by decide) (by decide) (by decide) (by simp [SIZE])).1,
    (seed_row_fields "initial" (fun _ => none) "ZINC01".data "1".data "-7.512".data
      "-7.2,-7.1,-7.0,-6.9,-6.8,-6.7,-6.6,-6.5".data (by decide) (by decide) (by decide)
      (by decide) (by decide) (by decide) (by simp [SIZE])).2.2.1⟩



/-! ## C6: the exit status of the scorer -/

/-- C6. In a generation whose directories are created and whose tasks all
return: when the scorer exits with a non-zero status the loop body ends with
`return 1` in the state in which the scorer was called, so that the events
of the generation are the pushed tasks, the run of the pool and the call of
the scorer, with no `update` and no sort, the csv file has no new line, and
the loop makes no later pass however long it is allowed to run; when the
scorer exits with status 0 the generation goes on with the re-read, and if no
`update` throws it ranks the re-read population, writes its lines and reaches
the end of the loop body. -/
theorem scorer_exit_status (w : World) (o : Options) (idock_path : String) (g : Nat)
    (s : State) (hdirs : directories_created w o g = true)
    (htasks : (tp_run w s.ligands s.num_failures
      (create_tasks w o (ligand_folder o g) s.eng_calls)).thrown = false) :
    (w.idock idock_path (idock_args o g) ≠ 0 →
      generation w o idock_path g s = (after_idock w o g s, some 1)
      ∧ (after_idock w o g s).trace
          = s.trace ++ (create_tasks w o (ligand_folder o g) s.eng_calls).map Event.push_back
            ++ [Event.run, Event.idock (idock_args o g)]
      ∧ (∀ e ∈ (after_idock w o g s).trace.drop s.trace.length,
          e ≠ Event.sort ∧ ∀ i file, e ≠ Event.update i file)
      ∧ (after_idock w o g s).ligands
          = (tp_run w s.ligands s.num_failures
              (create_tasks w o (ligand_folder o g) s.eng_calls)).ligands
      ∧ (after_idock w o g s).csv = s.csv
      ∧ ∀ fuel, loop w o idock_path (fuel + 1) g s = (after_idock w o g s, some 1))
    ∧ (w.idock idock_path (idock_args o g) = 0 →
      generation w o idock_path g s = rank_report w o g (after_idock w o g s)
      ∧ ((reread w o (output_folder o g) (List.range (num_children o))
            (after_idock w o g s).ligands).2.2 = true →
          (generation w o idock_path g s).2 = none
          ∧ (generation w o idock_path g s).1.ligands
              = rank w.sort (reread w o (output_folder o g) (List.range (num_children o))
                  (after_idock w o g s).ligands).2.1
          ∧ (generation w o idock_path g s).1.csv
              = s.csv ++ report w o g (generation w o idock_path g s).1.ligands
          ∧ (generation w o idock_path g s).1.trace
              = (after_idock w o g s).trace
                ++ (reread w o (output_folder o g) (List.range (num_children o))
                    (after_idock w o g s).ligands).1
                ++ [Event.sort])) := by
  have hgen := generation_eq w o idock_path g s
  rw [if_neg (by simp [hdirs]), if_neg (by simp [htasks])] at hgen
  constructor
  · intro hexit
    rw [if_pos hexit] at hgen
    have htrace : (after_idock w o g s).trace
        = s.trace ++ (create_tasks w o (ligand_folder o g) s.eng_calls).map Event.push_back
          ++ [Event.run, Event.idock (idock_args o g)] := by
      simp [after_idock, after_tasks]
    refine ⟨hgen, htrace, ?_, rfl, rfl, fun fuel => loop_stops w o idock_path fuel g s _ 1 hgen⟩
    intro e he
    rw [htrace, List.append_assoc, List.drop_left] at he
    rcases List.mem_append.1 he with h1 | h1
    · obtain ⟨t, -, rfl⟩ := List.mem_map.1 h1
      exact ⟨by simp, by simp⟩
    · simp only [List.mem_cons, List.mem_singleton, List.not_mem_nil, or_false] at h1
      rcases h1 with rfl | rfl
      · exact ⟨by simp, by simp⟩
      · exact ⟨by simp, by simp⟩
  · intro hexit
    rw [if_neg (by simp [hexit])] at hgen
    refine ⟨hgen, ?_⟩
    intro hre
    have hfull : (generation w o idock_path g s).2 = none := by
      rw [hgen, rank_report_code, if_pos hre]
    obtain ⟨-, -, -, -, heq⟩ := generation_full w o idock_path g s hfull
    refine ⟨hfull, ?_, ?_, ?_⟩
    · rw [heq]; rfl
    · rw [heq]
    · rw [heq]; simp [after_idock, after_tasks]

/-- C6, at a small generation whose scorer exits with status 1. -/
theorem scorer_exit_status_witness :
    directories_created (sample_world false 1) small_options 1 = true
    ∧ (tp_run (sample_world false 1) small_state.ligands small_state.num_failures
        (create_tasks (sample_world false 1) small_options (ligand_folder small_options 1)
          small_state.eng_calls)).thrown = false
    ∧ (sample_world false 1).idock "idock" (idock_args small_options 1) ≠ 0
    ∧ generation (sample_world false 1) small_options "idock" 1 small_state
        = (after_idock (sample_world false 1) small_options 1 small_state, some 1) :=
  ⟨rfl, tp_run_not_thrown _ _ _ _ (by intro t n; simp [sample_world]),
    by simp [sample_world],
    ((scorer_exit_status (sample_world false 1) small_options "idock" 1 small_state rfl
      (tp_run_not_thrown _ _ _ _ (by intro t n; simp [sample_world]))).1
      (by simp [sample_world])).1⟩

/-! ## C7: the exit code of `main` -/

theorem ite_return_one (c : Prop) [Decidable c] (x : Option Nat)
    (hx : x = none ∨ x = some 1) :
    (if c then some 1 else x) = none ∨ (if c then some 1 else x) = some 1 := by
  by_cases h : c
  · rw [if_pos h]; exact Or.inr rfl
  · rw [if_neg h]; exact hx

/-- The option handling returns 0 exactly when `argc == 1`; otherwise it
returns 1 or hands over to the run. -/
theorem process_options_code (o : Options) :
    (o.argc = 1 → process_options o = some 0)
    ∧ (o.argc ≠ 1 → process_options o = none ∨ process_options o = some 1) := by
  unfold process_options
  constructor
  · intro h
    rw [if_pos h]
  · intro h
    rw [if_neg h]
    repeat' apply ite_return_one
    exact Or.inl rfl

/-- C7, refuted. Started without command line arguments (`argc == 1`), `main`
prints the usage and returns 0 (lines 128-132). -/
theorem main_usage_returns_zero :
    (main (sample_world false 0) { default_options with argc := 1 } 1).2 = some 0 := by
  rfl

/-- C7, amended. `main` returns 0 exactly when it is started without command
line arguments (`argc == 1`, the usage path); whatever the options and the
world, its exit code is 0 or 1, so every other return path yields 1; and the
loop, for every state it is entered in, either is still running or has
ended with `return 1`. -/
theorem main_exit_code (w : World) (o : Options) (fuel : Nat) :
    ((main w o fuel).2 = some 0 ↔ o.argc = 1)
    ∧ ((main w o fuel).2 = none ∨ (main w o fuel).2 = some 0 ∨ (main w o fuel).2 = some 1)
    ∧ (∀ (idock_path : String) (g : Nat) (s : State),
        (loop w o idock_path fuel g s).2 = none ∨ (loop w o idock_path fuel g s).2 = some 1) := by
  have hloop := loop_code w o
  have hmain : (o.argc = 1 ∧ (main w o fuel).2 = some 0)
      ∨ (o.argc ≠ 1 ∧ ((main w o fuel).2 = none ∨ (main w o fuel).2 = some 1)) := by
    by_cases harg : o.argc = 1
    · left
      refine ⟨harg, ?_⟩
      unfold main
      rw [(process_options_code o).1 harg]
    · right
      refine ⟨harg, ?_⟩
      unfold main
      rcases (process_options_code o).2 harg with h | h
      · rw [h]
        simp only
        split
        · exact Or.inr rfl
        · split
          · exact Or.inr rfl
          · exact hloop _ fuel 1 _
      · rw [h]
        exact Or.inr rfl
  refine ⟨?_, ?_, fun idock_path g s => hloop idock_path fuel g s⟩
  · rcases hmain with ⟨h1, h2⟩ | ⟨h1, h2⟩
    · exact ⟨fun _ => h1, fun _ => h2⟩
    · constructor
      · intro h0
        rcases h2 with h2 | h2 <;> rw [h2] at h0 <;> simp at h0
      · intro h0
        exact absurd h0 h1
  · rcases hmain with ⟨-, h2⟩ | ⟨-, h2 | h2⟩
    · exact Or.inr (Or.inl h2)
    · exact Or.inl h2
    · exact Or.inr (Or.inr h2)

/-! ## C8: an exception in a task -/

theorem reread_length (w : World) (o : Options) (folder : String) :
    ∀ (is : List Nat) (ligands : List ligand),
      (reread w o folder is ligands).2.1.length = ligands.length := by
  intro is
  induction is with
  | nil => intro ligands; rfl
  | cons i rest ih =>
    intro ligands
    unfold reread
    split
    · rfl
    · simp only [ih, List.length_set]

/-- A re-read that goes through all its indices leaves every slot that is not
the slot of one of its indices as it was, and stores in the slot of each
index what `update` makes of the ligand that was there. -/
theorem reread_spec (w : World) (o : Options) (folder : String) :
    ∀ (is : List Nat) (ligands : List ligand), is.Nodup →
      (∀ i ∈ is, o.num_elitists + i < ligands.length ∧ o.num_elitists + i < SIZE) →
      (reread w o folder is ligands).2.2 = true →
      (∀ k, (∀ i ∈ is, k ≠ o.num_elitists + i) →
          (reread w o folder is ligands).2.1.getD k default = ligands.getD k default)
      ∧ (∀ i ∈ is,
          w.update (path_div folder ((ligand_filenames o).getD i ""))
              (ligands.getD (o.num_elitists + i) default)
            = some ((reread w o folder is ligands).2.1.getD (o.num_elitists + i) default)) := by
  intro is
  induction is with
  | nil =>
    intro ligands _ _ _
    exact ⟨fun k _ => rfl, fun i hi => by simp at hi⟩
  | cons i rest ih =>
    intro ligands hnd hin hdone
    rw [List.nodup_cons] at hnd
    have hi := hin i (List.mem_cons_self i rest)
    have hmod : (o.num_elitists + i) % SIZE = o.num_elitists + i := Nat.mod_eq_of_lt hi.2
    unfold reread at hdone ⊢
    split
    · rename_i hr
      rw [hr] at hdone
      simp at hdone
    · rename_i l hr
      rw [hr] at hdone
      simp only at hdone ⊢
      rw [hmod] at hdone hr ⊢
      have hin2 : ∀ j ∈ rest, o.num_elitists + j < (ligands.set (o.num_elitists + i) l).length
          ∧ o.num_elitists + j < SIZE := by
        intro j hj
        rw [List.length_set]
        exact hin j (List.mem_cons_of_mem i hj)
      obtain ⟨ih1, ih2⟩ := ih (ligands.set (o.num_elitists + i) l) hnd.2 hin2 hdone
      constructor
      · intro k hk
        rw [ih1 k (fun j hj => hk j (List.mem_cons_of_mem i hj))]
        have hne : o.num_elitists + i ≠ k := fun h => hk i (List.mem_cons_self i rest) h.symm
        simp only [List.getD_eq_getElem?_getD, List.getElem?_set_ne hne]
      · intro j hj
        rcases List.mem_cons.1 hj with rfl | hj
        · rw [hr, ih1 (o.num_elitists + j)]
          · simp only [List.getD_eq_getElem?_getD, List.getElem?_set_self hi.1, Option.getD_some]
          · intro j2 hj2 heq
            have : j = j2 := by omega
            exact hnd.1 (this ▸ hj2)
        · have hne : o.num_elitists + i ≠ o.num_elitists + j := by
            intro heq
            have : i = j := by omega
            exact hnd.1 (this ▸ hj)
          have h2 := ih2 j hj
          simp only [List.getD_eq_getElem?_getD, List.getElem?_set_ne hne] at h2
          simpa only [List.getD_eq_getElem?_getD] using h2

theorem tp_run_foldl_length (w : World) (parents : List ligand) :
    ∀ (tasks : List operation_task) (ps : pool_state),
      (tasks.foldl (run_one w parents) ps).ligands.length = ps.ligands.length := by
  intro tasks
  induction tasks with
  | nil => intro ps; rfl
  | cons t rest ih =>
    intro ps
    rw [List.foldl_cons, ih]
    unfold run_one
    split
    · simp only [List.length_set]
    · rfl

/-- The pool leaves the size of the population as it is. -/
theorem tp_run_length (w : World) (ligands : List ligand) (n0 : Nat)
    (tasks : List operation_task) :
    (tp_run w ligands n0 tasks).ligands.length = ligands.length :=
  tp_run_foldl_length w ligands tasks _

/-- The state with which `main` enters the loop: the elitists are loaded,
nothing has failed, `eng` has not been called, the csv file holds its header. -/
theorem enter_loop_state (w : World) (o : Options) (idock_path : String) (s0 : State)
    (h : enter_loop w o = some (idock_path, s0)) :
    process_options o = none
    ∧ load_elitists w o o.num_elitists 0 (w.initial_generation_csv.drop 1)
        (resize w (num_ligands o)) = some s0.ligands
    ∧ w.find_idock = some idock_path
    ∧ s0.num_failures = 0 ∧ s0.eng_calls = 0 ∧ s0.csv = [csv_header] ∧ s0.trace = [] := by
  unfold enter_loop at h
  split at h
  · simp at h
  · rename_i hopt
    split at h
    · simp at h
    · rename_i ligands hload
      split at h
      · simp at h
      · rename_i ip hip
        simp only [Option.some.injEq, Prod.mk.injEq] at h
        obtain ⟨h1, h2⟩ := h
        subst h1
        subst h2
        exact ⟨hopt, hload, hip, rfl, rfl, rfl, rfl⟩

/-- One more pass: the passes before it and then one body that reaches its end. -/
theorem top_of_pass_succ (w : World) (o : Options) (idock_path : String) :
    ∀ (n g : Nat) (s : State) (g2 : Nat) (s2 : State),
      top_of_pass w o idock_path (n + 1) g s = some (g2, s2) →
      ∃ g1 s1, top_of_pass w o idock_path n g s = some (g1, s1)
        ∧ generation w o idock_path g1 s1 = (s2, none) ∧ g2 = (g1 + 1) % SIZE := by
  intro n
  induction n with
  | zero =>
    intro g s g2 s2 h
    unfold top_of_pass at h
    split at h
    · simp at h
    · rename_i s1 hgen
      simp only [top_of_pass, Option.some.injEq, Prod.mk.injEq] at h
      obtain ⟨h1, h2⟩ := h
      subst h1
      subst h2
      exact ⟨g, s, rfl, hgen, rfl⟩
  | succ n ih =>
    intro g s g2 s2 h
    rw [top_of_pass] at h
    split at h
    · simp at h
    · rename_i s1 hgen
      obtain ⟨g3, s3, h3, h4, h5⟩ := ih _ _ _ _ h
      refine ⟨g3, s3, ?_, h4, h5⟩
      rw [top_of_pass, hgen]
      exact h3

/-- A body that reaches its end is one pass. -/
theorem top_of_pass_one (w : World) (o : Options) (idock_path : String) (g : Nat) (s : State)
    (h : (generation w o idock_path g s).2 = none) :
    top_of_pass w o idock_path 1 g s
      = some ((g + 1) % SIZE, (generation w o idock_path g s).1) := by
  rw [top_of_pass]
  split
  · rename_i c hgen
    rw [hgen] at h
    simp at h
  · rename_i s1 hgen
    rw [hgen]
    rfl

theorem small_options_accepted : process_options small_options = none := by
  norm_num [process_options, small_options, default_options]

theorem small_options_fit : population_fits small_options := by
  simp [population_fits, small_options, default_options, SIZE]

/-- The small run enters the loop in the example world. -/
theorem small_run_enters :
    enter_loop (sample_world false 0) small_options = some ("/usr/bin/idock", small_start) := by
  unfold enter_loop
  rw [small_options_accepted]
  rfl

/-- In the example world every body reaches its end. -/
theorem sample_world_full_at (idock_path : String) (o : Options) (g : Nat) (s : State) :
    (generation (sample_world false 0) o idock_path g s).2 = none := by
  apply generation_runs_full
  · rfl
  · intro t n; simp [sample_world]
  · rfl
  · intro file l; simp [sample_world]

/-! ## C11: the seeds of the tasks -/

/-- A task that raises has found the failure budget used up. -/
theorem operation_retry_raises (max_failures : Nat) (attempt : Nat → Option ligand) :
    ∀ (fuel k n : Nat), max_failures ≤ n + fuel →
      (operation_retry max_failures attempt fuel k n).1 = none →
      max_failures ≤ (operation_retry max_failures attempt fuel k n).2 := by
  intro fuel
  induction fuel with
  | zero =>
    intro k n hfuel hnone
    rw [operation_retry] at hnone ⊢
    split
    · rename_i l hl
      rw [hl] at hnone
      simp at hnone
    · simp only
      omega
  | succ fuel ih =>
    intro k n hfuel hnone
    rw [operation_retry] at hnone ⊢
    split
    · rename_i l hl
      rw [hl] at hnone
      simp at hnone
    · rename_i hl
      rw [hl] at hnone
      simp only at hnone ⊢
      by_cases hb : max_failures ≤ n + 1
      · rw [if_pos hb]
        exact hb
      · rw [if_neg hb] at hnone ⊢
        exact ih (k + 1) (n + 1) (by omega) hnone

/-- What lines 270-277 do with one row, in terms of `seed_ligand`. -/
theorem load_elitists_cons (w : World) (o : Options) (n i : Nat) (line : List Char)
    (rest : List (List Char)) (ligands : List ligand) :
    load_elitists w o (n + 1) i (line :: rest) ligands
      = match seed_ligand w o line with
        | none => none
        | some l =>
          if i < ligands.length then load_elitists w o n (i + 1) rest (ligands.set i l)
          else none := by
  rw [load_elitists]
  unfold seed_ligand
  cases seed_path o.initial_generation_folder_path line with
  | none => rfl
  | some file =>
    simp only
    cases w.new_ligand file with
    | none => rfl
    | some l =>
      simp only
      cases seed_free_energy w.lexical_cast_fl line with
      | none => simp
      | some fe => rfl

/-- With fewer rows than iterations the loop of lines 261-278 ends in
`return 1`. -/
theorem load_elitists_short (w : World) (o : Options) :
    ∀ (n i : Nat) (lines : List (List Char)) (ligands : List ligand),
      lines.length < n → load_elitists w o n i lines ligands = none := by
  intro n
  induction n with
  | zero => intro i lines ligands h; omega
  | succ n ih =>
    intro i lines ligands h
    cases lines with
    | nil => rw [load_elitists]
    | cons line rest =>
      rw [load_elitists_cons]
      have hrest : rest.length < n := by simpa using h
      cases seed_ligand w o line with
      | none => rfl
      | some l =>
        simp only
        split
        · exact ih _ _ _ hrest
        · rfl

/-- The loop of lines 261-278 reads no row after the first `n`. -/
theorem load_elitists_take (w : World) (o : Options) :
    ∀ (n i : Nat) (lines : List (List Char)) (ligands : List ligand),
      load_elitists w o n i lines ligands = load_elitists w o n i (lines.take n) ligands := by
  intro n
  induction n with
  | zero => intro i lines ligands; simp [load_elitists]
  | succ n ih =>
    intro i lines ligands
    cases lines with
    | nil => simp
    | cons line rest =>
      rw [List.take_succ_cons, load_elitists_cons, load_elitists_cons]
      cases seed_ligand w o line with
      | none => rfl
      | some l =>
        simp only
        rw [ih (i + 1) rest (ligands.set i l)]

/-- When there are `n` rows, each of which can be loaded, and `n` slots from
`i` on, the loop of lines 261-278 stores the ligand of row `k` in slot
`i + k` and leaves the other slots as they are. -/
theorem load_elitists_rows (w : World) (o : Options) :
    ∀ (n i : Nat) (lines : List (List Char)) (ligands : List ligand),
      n ≤ lines.length → i + n ≤ ligands.length →
      (∀ k, k < n → ∃ l, seed_ligand w o (lines.getD k []) = some l) →
      ∃ result, load_elitists w o n i lines ligands = some result
        ∧ result.length = ligands.length
        ∧ (∀ k, k < n →
            seed_ligand w o (lines.getD k []) = some (result.getD (i + k) default))
        ∧ (∀ j, j < i ∨ i + n ≤ j → result.getD j default = ligands.getD j default) := by
  intro n
  induction n with
  | zero =>
    intro i lines ligands _ _ _
    exact ⟨ligands, by simp [load_elitists], rfl, fun k hk => by omega, fun j _ => rfl⟩
  | succ n ih =>
    intro i lines ligands hlines hslots hrows
    cases lines with
    | nil => simp at hlines
    | cons line rest =>
      obtain ⟨l, hl⟩ := hrows 0 (by omega)
      simp only [List.getD_cons_zero] at hl
      have hi : i < ligands.length := by omega
      rw [load_elitists_cons, hl]
      simp only
      rw [if_pos hi]
      obtain ⟨result, h1, h2, h3, h4⟩ := ih (i + 1) rest (ligands.set i l)
        (by simpa using hlines) (by rw [List.length_set]; omega)
        (fun k hk => by
          have := hrows (k + 1) (by omega)
          simpa only [List.getD_cons_succ] using this)
      refine ⟨result, h1, by rw [h2, List.length_set], ?_, ?_⟩
      · intro k hk
        cases k with
        | zero =>
          rw [List.getD_cons_zero, hl, Nat.add_zero, h4 i (Or.inl (by omega))]
          simp only [List.getD_eq_getElem?_getD, List.getElem?_set_self hi, Option.getD_some]
        | succ k =>
          have := h3 k (by omega)
          rw [List.getD_cons_succ, this]
          have e1 : i + 1 + k = i + (k + 1) := by omega
          rw [e1]
      · intro j hj
        have hne : i ≠ j := by omega
        rw [h4 j (by omega)]
        simp only [List.getD_eq_getElem?_getD, List.getElem?_set_ne hne]

/-- A row among the first `n` that cannot be loaded ends the loop of lines
261-278 in `return 1`. -/
theorem load_elitists_bad_row (w : World) (o : Options) :
    ∀ (n i : Nat) (lines : List (List Char)) (ligands : List ligand) (k : Nat),
      k < n → k < lines.length → seed_ligand w o (lines.getD k []) = none →
      load_elitists w o n i lines ligands = none := by
  intro n
  induction n with
  | zero => intro i lines ligands k hk; omega
  | succ n ih =>
    intro i lines ligands k hk hlen hbad
    cases lines with
    | nil => simp at hlen
    | cons line rest =>
      rw [load_elitists_cons]
      cases k with
      | zero =>
        rw [List.getD_cons_zero] at hbad
        rw [hbad]
      | succ k =>
        rw [List.getD_cons_succ] at hbad
        cases seed_ligand w o line with
        | none => rfl
        | some l =>
          simp only
          split
          · exact ih _ _ _ k (by omega) (by simpa using hlen) hbad
          · rfl

theorem default_options_accepted : process_options default_options = none := by
  norm_num [process_options, default_options]

/-- C13, refuted. A seed file with at least `num_elitists` rows does not
always fill the slots. In the world whose one row has the free energy `-7.5`
of four characters, the text converted runs into the next field and the
conversion throws: with one elitist, `main` returns 1 before the loop. And
with `--elitists 3 --mutants 18446744073709551614 --crossovers 0` on a file
of three rows the population has `num_ligands = 1` slot, `replace(1, ...)`
throws, and `main` returns 1 before the loop. -/
theorem seed_rows_not_loaded :
    (process_options small_options = none
      ∧ small_options.num_elitists ≤ (strict_world.initial_generation_csv.drop 1).length
      ∧ seed_free_energy_text ((strict_world.initial_generation_csv.drop 1).getD 0 [])
          = some "-7.5,-7.2".data
      ∧ main strict_world small_options 1 = (State.start, some 1))
    ∧ (process_options wrapped_population_options = none
      ∧ wrapped_population_options.num_elitists
          ≤ ((sample_world false 0).initial_generation_csv.drop 1).length
      ∧ num_ligands wrapped_population_options = 1
      ∧ main (sample_world false 0) wrapped_population_options 1 = (State.start, some 1)) := by
  have h2 : process_options wrapped_population_options = none := by
    norm_num [process_options, wrapped_population_options, default_options]
  refine ⟨⟨small_options_accepted, by decide, by decide, ?_⟩, h2, by decide, by decide, ?_⟩
  · have hl : load_elitists strict_world small_options small_options.num_elitists 0
        (strict_world.initial_generation_csv.drop 1)
        (resize strict_world (num_ligands small_options)) = none := by
      decide
    unfold main
    rw [small_options_accepted, hl]
  · have hl : load_elitists (sample_world false 0) wrapped_population_options
        wrapped_population_options.num_elitists 0
        ((sample_world false 0).initial_generation_csv.drop 1)
        (resize (sample_world false 0) (num_ligands wrapped_population_options)) = none := by
      decide
    unfold main
    rw [h2, hl]

/-- C13, amended. For options that pass the checks of lines 69-238: when the
seed file has fewer than `num_elitists` rows after its header, or one of its
first `num_elitists` rows cannot be loaded, `main` returns 1 in the state it
had before the loop, whatever the number of passes allowed; when it has at
least `num_elitists` rows, the rows after the first `num_elitists` have no
influence on the loading, and, the population size being a `size_t` and each
of the first `num_elitists` rows being loadable, the loading completes with
the ligand of row `k` in slot `k` for every `k < num_elitists`, the slots
from `num_elitists` on as `resize` made them, and `main` enters the loop
with that population. -/
theorem seed_rows_fill_elitists (w : World) (o : Options) (hopt : process_options o = none) :
    ((w.initial_generation_csv.drop 1).length < o.num_elitists →
      ∀ fuel, main w o fuel = (State.start, some 1))
    ∧ (∀ k, k < o.num_elitists → k < (w.initial_generation_csv.drop 1).length →
      seed_ligand w o ((w.initial_generation_csv.drop 1).getD k []) = none →
      ∀ fuel, main w o fuel = (State.start, some 1))
    ∧ (o.num_elitists ≤ (w.initial_generation_csv.drop 1).length →
      load_elitists w o o.num_elitists 0 (w.initial_generation_csv.drop 1)
          (resize w (num_ligands o))
        = load_elitists w o o.num_elitists 0
            ((w.initial_generation_csv.drop 1).take o.num_elitists)
            (resize w (num_ligands o))
      ∧ (population_fits o →
        (∀ k, k < o.num_elitists →
          ∃ l, seed_ligand w o ((w.initial_generation_csv.drop 1).getD k []) = some l) →
        ∃ ligands,
          load_elitists w o o.num_elitists 0 (w.initial_generation_csv.drop 1)
              (resize w (num_ligands o)) = some ligands
          ∧ ligands.length = num_ligands o
          ∧ (∀ k, k < o.num_elitists →
              seed_ligand w o ((w.initial_generation_csv.drop 1).getD k [])
                = some (ligands.getD k default))
          ∧ (∀ j, o.num_elitists ≤ j → j < num_ligands o →
              ligands.getD j default = w.default_constructed j)
          ∧ ∀ idock_path fuel, w.find_idock = some idock_path →
              main w o fuel
                = loop w o idock_path fuel 1
                    { ligands := ligands, num_failures := 0, eng_calls := 0,
                      csv := [csv_header], trace := [] })) := by
  refine ⟨?_, ?_, ?_⟩
  · intro hshort fuel
    unfold main
    rw [hopt, load_elitists_short w o _ _ _ _ hshort]
  · intro k hk hlen hbad fuel
    unfold main
    rw [hopt, load_elitists_bad_row w o _ _ _ _ k hk hlen hbad]
  · intro hrows
    refine ⟨load_elitists_take w o _ _ _ _, ?_⟩
    intro hfit hload
    have hsize := num_ligands_eq o hfit
    obtain ⟨ligands, h1, h2, h3, h4⟩ := load_elitists_rows w o o.num_elitists 0
      (w.initial_generation_csv.drop 1) (resize w (num_ligands o)) hrows
      (by rw [resize_length, hsize]; omega) hload
    refine ⟨ligands, h1, by rw [h2, resize_length], ?_, ?_, ?_⟩
    · intro k hk
      have := h3 k hk
      rwa [Nat.zero_add] at this
    · intro j hj hjn
      rw [h4 j (Or.inr (by omega)), resize_getD w _ j hjn]
    · intro idock_path fuel hip
      unfold main
      rw [hopt, h1, hip]

/-- C13 amended, at three runs: the default sizes (ten elitists) on the three
rows of the example world; the small run in the world whose one row cannot
be loaded; and the small run in the example world, one elitist and three
rows. -/
theorem seed_rows_fill_elitists_witness :
    (process_options default_options = none
      ∧ ((sample_world false 0).initial_generation_csv.drop 1).length
          < default_options.num_elitists
      ∧ ∀ fuel, main (sample_world false 0) default_options fuel = (State.start, some 1))
    ∧ (process_options small_options = none
      ∧ 0 < small_options.num_elitists
      ∧ 0 < (strict_world.initial_generation_csv.drop 1).length
      ∧ seed_ligand strict_world small_options
          ((strict_world.initial_generation_csv.drop 1).getD 0 []) = none
      ∧ ∀ fuel, main strict_world small_options fuel = (State.start, some 1))
    ∧ process_options small_options = none
    ∧ small_options.num_elitists ≤ ((sample_world false 0).initial_generation_csv.drop 1).length
    ∧ population_fits small_options
    ∧ (∀ k, k < small_options.num_elitists →
        ∃ l, seed_ligand (sample_world false 0) small_options
          (((sample_world false 0).initial_generation_csv.drop 1).getD k []) = some l)
    ∧ ∃ ligands,
        load_elitists (sample_world false 0) small_options small_options.num_elitists 0
            ((sample_world false 0).initial_generation_csv.drop 1)
            (resize (sample_world false 0) (num_ligands small_options)) = some ligands
        ∧ ligands.length = num_ligands small_options
        ∧ (∀ k, k < small_options.num_elitists →
            seed_ligand (sample_world false 0) small_options
                (((sample_world false 0).initial_generation_csv.drop 1).getD k [])
              = some (ligands.getD k default))
        ∧ (∀ j, small_options.num_elitists ≤ j → j < num_ligands small_options →
            ligands.getD j default = (sample_world false 0).default_constructed j)
        ∧ ∀ idock_path fuel, (sample_world false 0).find_idock = some idock_path →
            main (sample_world false 0) small_options fuel
              = loop (sample_world false 0) small_options idock_path fuel 1
                  { ligands := ligands, num_failures := 0, eng_calls := 0,
                    csv := [csv_header], trace := [] } :=
  ⟨⟨default_options_accepted, by decide,
      (seed_rows_fill_elitists (sample_world false 0) default_options
        default_options_accepted).1 (by decide)⟩,
    ⟨small_options_accepted, by decide, by decide, by decide,
      (seed_rows_fill_elitists strict_world small_options small_options_accepted).2.1 0
        (by decide) (by decide) (by decide)⟩,
    small_options_accepted, by decide, small_options_fit,
    fun k hk => by
      have hk0 : k = 0 := by
        have h1 : small_options.num_elitists = 1 := rfl
        omega
      subst hk0
      exact ⟨_, rfl⟩,
    ((seed_rows_fill_elitists (sample_world false 0) small_options small_options_accepted).2.2
      (by decide)).2 small_options_fit
      (fun k hk => by
        have hk0 : k = 0 := by
          have h1 : small_options.num_elitists = 1 := rfl
          omega
        subst hk0
        exact ⟨_, rfl⟩)⟩

/-! ## C14: the elitists from one generation to the next -/

/-- In a list in ascending order of free energy that is a permutation of a
list whose first `k + 1` ligands have free energy at most `v`, the ligand
of slot `k` has free energy at most `v`. -/
theorem sorted_perm_prefix_le (Q R : List ligand) (v : fl) (k : Nat)
    (hperm : R.Perm Q) (hsorted : R.Pairwise (fun a b => a.free_energy ≤ b.free_energy))
    (hk : k < Q.length) (hpre : ∀ j, j ≤ k → (Q.getD j default).free_energy ≤ v) :
    (R.getD k default).free_energy ≤ v := by
  have hkR : k < R.length := by rw [hperm.length_eq]; exact hk
  rw [List.getD_eq_getElem _ _ hkR]
  by_contra hcon
  have hlt : v < R[k].free_energy := not_le.1 hcon
  have hQ : k + 1 ≤ List.countP (fun l => decide (l.free_energy ≤ v)) Q := by
    have hall : List.countP (fun l => decide (l.free_energy ≤ v)) (Q.take (k + 1))
        = (Q.take (k + 1)).length := by
      rw [List.countP_eq_length]
      intro a ha
      obtain ⟨i, hi, rfl⟩ := List.mem_take_iff_getElem.1 ha
      have hi1 : i ≤ k := by
        have := (lt_min_iff.1 hi).1
        omega
      have hi2 : i < Q.length := (lt_min_iff.1 hi).2
      have := hpre i hi1
      rw [List.getD_eq_getElem _ _ hi2] at this
      simpa using this
    have hlen : (Q.take (k + 1)).length = k + 1 := by
      rw [List.length_take]
      exact min_eq_left (by omega)
    have hsplit := List.countP_append (fun l => decide (l.free_energy ≤ v))
      (Q.take (k + 1)) (Q.drop (k + 1))
    rw [List.take_append_drop, hall, hlen] at hsplit
    omega
  have hR : List.countP (fun l => decide (l.free_energy ≤ v)) R ≤ k := by
    have hzero : List.countP (fun l => decide (l.free_energy ≤ v)) (R.drop k) = 0 := by
      rw [List.countP_eq_zero]
      intro a ha
      obtain ⟨i, hi, rfl⟩ := List.mem_drop_iff_getElem.1 ha
      have hle : R[k].free_energy ≤ R[k + i].free_energy := by
        rcases Nat.eq_zero_or_pos i with h0 | hpos
        · subst h0
          exact le_refl _
        · exact (List.pairwise_iff_getElem.1 hsorted) k (k + i) hkR (by omega) (by omega)
      simp only [decide_eq_true_eq, not_le]
      exact lt_of_lt_of_le hlt hle
    have hsplit := List.countP_append (fun l => decide (l.free_energy ≤ v))
      (R.take k) (R.drop k)
    rw [List.take_append_drop, hzero, Nat.add_zero] at hsplit
    have hle := List.countP_le_length (fun l => decide (l.free_energy ≤ v)) (l := R.take k)
    have hlen : (R.take k).length ≤ k := by
      rw [List.length_take]
      exact min_le_left _ _
    omega
  have heq := hperm.countP_eq (fun l => decide (l.free_energy ≤ v))
  omega

theorem tp_run_foldl_other_slots (w : World) (parents : List ligand) (j : Nat) :
    ∀ (tasks : List operation_task) (ps : pool_state), (∀ t ∈ tasks, t.index ≠ j) →
      (tasks.foldl (run_one w parents) ps).ligands.getD j default
        = ps.ligands.getD j default := by
  intro tasks
  induction tasks with
  | nil => intro ps _; rfl
  | cons t rest ih =>
    intro ps h
    rw [List.foldl_cons, ih _ (fun t2 ht2 => h t2 (List.mem_cons_of_mem t ht2))]
    have hne : t.index ≠ j := h t (List.mem_cons_self t rest)
    unfold run_one
    split
    · simp only [List.getD_eq_getElem?_getD, List.getElem?_set_ne hne]
    · rfl

/-- The pool leaves every slot that is not the slot of a task as it was. -/
theorem tp_run_other_slots (w : World) (ligands : List ligand) (n0 : Nat)
    (tasks : List operation_task) (j : Nat) (h : ∀ t ∈ tasks, t.index ≠ j) :
    (tp_run w ligands n0 tasks).ligands.getD j default = ligands.getD j default :=
  tp_run_foldl_other_slots w ligands j tasks _ h

/-- No task is bound to a slot below `num_elitists`. -/
theorem create_tasks_index_ge (w : World) (o : Options) (folder : String) (eng_calls : Nat)
    (hfit : population_fits o) :
    ∀ t ∈ create_tasks w o folder eng_calls, o.num_elitists ≤ t.index := by
  intro t ht
  obtain ⟨i, hi, rfl⟩ := List.mem_iff_getElem.1 ht
  rw [create_tasks_getElem w o folder eng_calls hfit i hi]
  exact Nat.le_add_right _ _

/-- The loop of lines 261-278 leaves the size of the population as it is. -/
theorem load_elitists_length (w : World) (o : Options) :
    ∀ (n i : Nat) (lines : List (List Char)) (ligands result : List ligand),
      load_elitists w o n i lines ligands = some result → result.length = ligands.length := by
  intro n
  induction n with
  | zero =>
    intro i lines ligands result h
    simp only [load_elitists, Option.some.injEq] at h
    rw [← h]
  | succ n ih =>
    intro i lines ligands result h
    cases lines with
    | nil => simp [load_elitists] at h
    | cons line rest =>
      rw [load_elitists_cons] at h
      cases hl : seed_ligand w o line with
      | none => rw [hl] at h; simp at h
      | some l =>
        rw [hl] at h
        simp only at h
        split at h
        · rw [ih _ _ _ _ h, List.length_set]
        · simp at h

/-- What a body that reaches its end leaves as population: the sorted
re-read population, which has the size of the population at the top of the
body and is in ascending order of free energy. -/
theorem generation_full_ranked (w : World) (o : Options) (idock_path : String) (g : Nat)
    (s s1 : State) (hsort : std_sort w.sort) (h : generation w o idock_path g s = (s1, none)) :
    s1.ligands = rank w.sort (reread w o (output_folder o g) (List.range (num_children o))
        (after_tasks w o g s).ligands).2.1
    ∧ s1.ligands.Perm (reread w o (output_folder o g) (List.range (num_children o))
        (after_tasks w o g s).ligands).2.1
    ∧ s1.ligands.Pairwise (fun a b => a.free_energy ≤ b.free_energy)
    ∧ s1.ligands.length = s.ligands.length := by
  have hfull : (generation w o idock_path g s).2 = none := by rw [h]
  obtain ⟨-, -, -, -, hgen⟩ := generation_full w o idock_path g s hfull
  rw [hgen] at h
  have h1 := congrArg (fun r => r.1.ligands) h
  simp only at h1
  obtain ⟨hperm, hpair⟩ := hsort (reread w o (output_folder o g)
    (List.range (num_children o)) (after_tasks w o g s).ligands).2.1
  rw [← h1]
  refine ⟨rfl, hperm, ?_, ?_⟩
  · exact List.Pairwise.imp (fun {a b} hab => (operator_lt_eq_false_iff a b).1 hab) hpair
  · show (w.sort _).length = _
    rw [hperm.length_eq, reread_length]
    exact tp_run_length w s.ligands s.num_failures _

/-- In a body that reaches its end, the slots below `num_elitists` hold at
the sort what they held at the top of the body: neither the tasks nor the
re-read write them. -/
theorem generation_elites_kept (w : World) (o : Options) (idock_path : String) (g : Nat)
    (s : State) (hfit : population_fits o) (hsize : s.ligands.length = num_ligands o)
    (hfull : (generation w o idock_path g s).2 = none) (k : Nat) (hk : k < o.num_elitists) :
    (reread w o (output_folder o g) (List.range (num_children o))
        (after_tasks w o g s).ligands).2.1.getD k default
      = s.ligands.getD k default := by
  obtain ⟨-, -, -, hdone, -⟩ := generation_full w o idock_path g s hfull
  have hchildren := num_children_eq o hfit
  have hligands := num_ligands_eq o hfit
  have hfit2 : o.num_elitists + o.num_mutants + o.num_crossovers < SIZE := hfit
  have hlen : (after_tasks w o g s).ligands.length = num_ligands o := by
    rw [← hsize]
    exact tp_run_length w s.ligands s.num_failures _
  have hin : ∀ i ∈ List.range (num_children o),
      o.num_elitists + i < (after_tasks w o g s).ligands.length
      ∧ o.num_elitists + i < SIZE := by
    intro i hi
    rw [List.mem_range, hchildren] at hi
    rw [hlen, hligands]
    constructor <;> omega
  obtain ⟨h1, -⟩ := reread_spec w o (output_folder o g) (List.range (num_children o))
    (after_tasks w o g s).ligands (List.nodup_range _) hin hdone
  rw [h1 k (fun i _ => by omega)]
  apply tp_run_other_slots
  intro t ht
  have := create_tasks_index_ge w o _ _ hfit t ht
  omega

/-- From a population in ascending order of free energy, a body that reaches
its end leaves in every slot below `num_elitists` a free energy that is at
most the one the slot held. -/
theorem generation_elite_le (w : World) (o : Options) (idock_path : String) (g : Nat)
    (s s1 : State) (hfit : population_fits o) (hsort : std_sort w.sort)
    (hsize : s.ligands.length = num_ligands o)
    (hsorted : s.ligands.Pairwise (fun a b => a.free_energy ≤ b.free_energy))
    (h : generation w o idock_path g s = (s1, none)) (k : Nat) (hk : k < o.num_elitists) :
    (s1.ligands.getD k default).free_energy ≤ (s.ligands.getD k default).free_energy := by
  have hfull : (generation w o idock_path g s).2 = none := by rw [h]
  obtain ⟨-, hperm, hpair, hlen⟩ := generation_full_ranked w o idock_path g s s1 hsort h
  have hligands := num_ligands_eq o hfit
  have hks : k < s.ligands.length := by rw [hsize, hligands]; omega
  apply sorted_perm_prefix_le _ _ _ k hperm hpair
  · rw [← hperm.length_eq, hlen]
    exact hks
  · intro j hj
    rw [generation_elites_kept w o idock_path g s hfit hsize hfull j (by omega)]
    have hjs : j < s.ligands.length := by omega
    rw [List.getD_eq_getElem _ _ hjs, List.getD_eq_getElem _ _ hks]
    rcases Nat.eq_or_lt_of_le hj with heq | hlt
    · subst heq
      exact le_refl _
    · exact (List.pairwise_iff_getElem.1 hsorted) j k hjs hks hlt

/-- The passes leave the size of the population as it is. -/
theorem top_of_pass_length (w : World) (o : Options) (idock_path : String)
    (hsort : std_sort w.sort) :
    ∀ (n g : Nat) (s : State) (g1 : Nat) (s1 : State),
      top_of_pass w o idock_path n g s = some (g1, s1) →
      s1.ligands.length = s.ligands.length := by
  intro n
  induction n with
  | zero =>
    intro g s g1 s1 h
    simp only [top_of_pass, Option.some.injEq, Prod.mk.injEq] at h
    rw [← h.2]
  | succ n ih =>
    intro g s g1 s1 h
    obtain ⟨g0, s0, h1, h2, -⟩ := top_of_pass_succ w o idock_path n g s g1 s1 h
    obtain ⟨-, -, -, hlen⟩ := generation_full_ranked w o idock_path g0 s0 s1 hsort h2
    rw [hlen]
    exact ih g s g0 s0 h1

/-- One more pass after `n` passes, when its body reaches the end. -/
theorem top_of_pass_snoc (w : World) (o : Options) (idock_path : String) :
    ∀ (n g : Nat) (s : State) (g1 : Nat) (s1 : State),
      top_of_pass w o idock_path n g s = some (g1, s1) →
      (generation w o idock_path g1 s1).2 = none →
      top_of_pass w o idock_path (n + 1) g s
        = some ((g1 + 1) % SIZE, (generation w o idock_path g1 s1).1) := by
  intro n
  induction n with
  | zero =>
    intro g s g1 s1 h hfull
    simp only [top_of_pass, Option.some.injEq, Prod.mk.injEq] at h
    obtain ⟨h1, h2⟩ := h
    subst h1
    subst h2
    exact top_of_pass_one w o idock_path g s hfull
  | succ n ih =>
    intro g s g1 s1 h hfull
    rw [top_of_pass] at h ⊢
    split at h
    · simp at h
    · exact ih _ _ _ _ h hfull

/-! ### The claim -/

/-- C14. In a run whose population size is a `size_t` and whose sort keeps the
guarantee of `std::sort`, let `s1` be the state after `n + 1` passes of the
loop and `s2` the state after `n + 2` passes. For every `k < num_elitists`:
in the pass from `s1` to `s2` slot `k` holds at the sort the ligand it held
in `s1` (the tasks, which write the one slot they are bound to, and the
re-read write slots from `num_elitists` on only), the population of `s2` is
the sorted population, and the free energy at slot `k` of `s2` is at most the
free energy at slot `k` of `s1`. -/
theorem elitism_monotone (w : World) (o : Options) (idock_path : String) (s0 : State)
    (n g1 : Nat) (s1 : State) (g2 : Nat) (s2 : State)
    (hfit : population_fits o) (hsort : std_sort w.sort)
    (hstart : enter_loop w o = some (idock_path, s0))
    (h1 : top_of_pass w o idock_path (n + 1) 1 s0 = some (g1, s1))
    (h2 : top_of_pass w o idock_path (n + 2) 1 s0 = some (g2, s2))
    (k : Nat) (hk : k < o.num_elitists) :
    (reread w o (output_folder o g1) (List.range (num_children o))
        (after_tasks w o g1 s1).ligands).2.1.getD k default
      = s1.ligands.getD k default
    ∧ s2.ligands = rank w.sort (reread w o (output_folder o g1)
        (List.range (num_children o)) (after_tasks w o g1 s1).ligands).2.1
    ∧ (s2.ligands.getD k default).free_energy ≤ (s1.ligands.getD k default).free_energy := by
  obtain ⟨-, hload, -, -, -, -, -⟩ := enter_loop_state w o idock_path s0 hstart
  have hsize0 : s0.ligands.length = num_ligands o := by
    rw [load_elitists_length w o _ _ _ _ _ hload, resize_length]
  obtain ⟨ga, sa, ha1, ha2, -⟩ := top_of_pass_succ w o idock_path n 1 s0 g1 s1 h1
  obtain ⟨gb, sb, hb1, hb2, -⟩ := top_of_pass_succ w o idock_path (n + 1) 1 s0 g2 s2 h2
  rw [h1] at hb1
  simp only [Option.some.injEq, Prod.mk.injEq] at hb1
  obtain ⟨hg, hs⟩ := hb1
  subst hg
  subst hs
  have hsize1 : s1.ligands.length = num_ligands o := by
    rw [top_of_pass_length w o idock_path hsort _ _ _ _ _ h1, hsize0]
  obtain ⟨-, -, hsorted1, -⟩ := generation_full_ranked w o idock_path ga sa s1 hsort ha2
  have hfull : (generation w o idock_path g1 s1).2 = none := by rw [hb2]
  obtain ⟨hranked, -, -, -⟩ := generation_full_ranked w o idock_path g1 s1 s2 hsort hb2
  exact ⟨generation_elites_kept w o idock_path g1 s1 hfit hsize1 hfull k hk, hranked,
    generation_elite_le w o idock_path g1 s1 s2 hfit hsort hsize1 hsorted1 hb2 k hk⟩

/-- C14, at the first two passes of the small run in the example world and
the slot of its one elitist. -/
theorem elitism_monotone_witness :
    population_fits small_options
    ∧ std_sort (sample_world false 0).sort
    ∧ enter_loop (sample_world false 0) small_options = some ("/usr/bin/idock", small_start)
    ∧ top_of_pass (sample_world false 0) small_options "/usr/bin/idock" 1 1 small_start
        = some ((1 + 1) % SIZE,
            (generation (sample_world false 0) small_options "/usr/bin/idock" 1 small_start).1)
    ∧ top_of_pass (sample_world false 0) small_options "/usr/bin/idock" 2 1 small_start
        = some (((1 + 1) % SIZE + 1) % SIZE,
            (generation (sample_world false 0) small_options "/usr/bin/idock" ((1 + 1) % SIZE)
              (generation (sample_world false 0) small_options "/usr/bin/idock" 1
                small_start).1).1)
    ∧ 0 < small_options.num_elitists
    ∧ (((generation (sample_world false 0) small_options "/usr/bin/idock" ((1 + 1) % SIZE)
          (generation (sample_world false 0) small_options "/usr/bin/idock" 1
            small_start).1).1.ligands.getD 0 default).free_energy
        ≤ ((generation (sample_world false 0) small_options "/usr/bin/idock" 1
            small_start).1.ligands.getD 0 default).free_energy) :=
  ⟨small_options_fit, ptr_vector_sort_std_sort, small_run_enters,
    top_of_pass_one _ _ _ _ _ (sample_world_full_at "/usr/bin/idock" small_options 1 small_start),
    top_of_pass_snoc _ _ _ 1 1 small_start _ _
      (top_of_pass_one _ _ _ _ _
        (sample_world_full_at "/usr/bin/idock" small_options 1 small_start))
      (sample_world_full_at "/usr/bin/idock" small_options _ _),
    by decide,
    (elitism_monotone (sample_world false 0) small_options "/usr/bin/idock" small_start 0
      ((1 + 1) % SIZE)
      (generation (sample_world false 0) small_options "/usr/bin/idock" 1 small_start).1
      (((1 + 1) % SIZE + 1) % SIZE)
      (generation (sample_world false 0) small_options "/usr/bin/idock" ((1 + 1) % SIZE)
        (generation (sample_world false 0) small_options "/usr/bin/idock" 1 small_start).1).1
      small_options_fit ptr_vector_sort_std_sort small_run_enters
      (top_of_pass_one _ _ _ _ _
        (sample_world_full_at "/usr/bin/idock" small_options 1 small_start))
      (top_of_pass_snoc _ _ _ 1 1 small_start _ _
        (top_of_pass_one _ _ _ _ _
          (sample_world_full_at "/usr/bin/idock" small_options 1 small_start))
        (sample_world_full_at "/usr/bin/idock" small_options _ _))
      0 (by decide)).2.2⟩

end igrow
